import Mathlib

/-!
A verification model of the legion entity/component storage engine
(archetype-based columnar storage, location index, entity lifecycle,
permissioned world split, change notification), following the public
surface re-exported by `src/world.rs`.
-/

namespace Legion

/- Component type identifiers (`ComponentTypeId`), component values (opaque to
the storage engine) and entity identifiers (`Entity`, issued sequentially by
the allocator) are all represented as `Nat`. -/

/-- Modelled from the spec: `EntityLocation` — the (archetype, row) address of a
live entity; the implementation in `crate::internals::entity` is not in `src/`. -/
structure EntityLocation where
  archetype : Nat
  row : Nat
deriving DecidableEq, Repr

/-- Modelled from the spec: `LocationMap` — mapping from entity id to its current
(archetype, row) address; absent for unknown/dead entities. -/
abbrev LocationMap := Nat → Option EntityLocation

/-- Modelled from the spec: structural `Event`s delivered to subscribers
(`ArchetypeCreated`, `EntityInserted`, `EntityRemoved`). -/
inductive Event where
  | archetypeCreated (layout : List Nat)
  | entityInserted (id : Nat) (archetype : Nat)
  | entityRemoved (id : Nat) (archetype : Nat)
deriving DecidableEq, Repr

/-- Modelled from the spec: an event subscriber (`EventSender` plus its layout
filter): a layout filter, a bounded sink capacity, and the sink's buffer. -/
structure Subscriber where
  filter : List Nat → Bool
  capacity : Nat
  sink : List Event

/-- Modelled from the spec: `Archetype` — columnar storage for all entities
sharing one `Layout`: one column (`cols`) per component type of the layout,
parallel to one ordered sequence of entity ids (`ids`); index = row. -/
structure Archetype where
  layout : List Nat
  ids : List Nat
  cols : List (List Nat)

/-- Modelled from the spec: `World` (the Store) — owns the archetype set
(`archCount` slots of `archs`), the location index, the sequential id
allocator (`nextId`), the subscriber list, the ordered event log, and the log
of events whose delivery failed (surfaced to the caller). The implementation
in `crate::internals::world` is not in `src/`. -/
structure World where
  archCount : Nat
  archs : Nat → Archetype
  locations : LocationMap
  nextId : Nat
  subscribers : List Subscriber
  events : List Event
  failed : List Event

def emptyArchetype : Archetype := ⟨[], [], []⟩

def emptyWorld : World :=
  ⟨0, fun _ => emptyArchetype, fun _ => none, 0, [], [], []⟩

/-- The archetype stored at index `i`. -/
def getA (w : World) (i : Nat) : Archetype := w.archs i

/-- Replace the archetype at index `i`. -/
def setA (w : World) (i : Nat) (a : Archetype) : World :=
  { w with archs := fun j => if j = i then a else w.archs j }

/-- Point-update of the location index. -/
def updLoc (m : LocationMap) (k : Nat) (v : Option EntityLocation) : LocationMap :=
  fun i => if i = k then v else m i

/-- Modelled from the spec: delivery of one event to one subscriber — the sink
receives the event when the filter matches the relevant layout and the sink has
room; a full sink reports backpressure (`false`). -/
def deliverOne (e : Event) (lay : List Nat) (s : Subscriber) : Subscriber × Bool :=
  if s.filter lay then
    if s.sink.length < s.capacity then ({ s with sink := s.sink ++ [e] }, true)
    else (s, false)
  else (s, true)

/-- Modelled from the spec: synchronous notification of one structural event:
append to the event log, deliver to every matching subscriber in order, and
record the event in `failed` when some matching sink reported backpressure. -/
def notify (w : World) (lay : List Nat) (e : Event) : World :=
  let rs := w.subscribers.map (deliverOne e lay)
  { w with
    subscribers := rs.map Prod.fst
    events := w.events ++ [e]
    failed := if rs.all Prod.snd then w.failed else w.failed ++ [e] }

/-- Notify a list of events in order. -/
def notifyAll (w : World) (lay : List Nat) (evs : List Event) : World :=
  evs.foldl (fun wc e => notify wc lay e) w

/-- The sink contents of a subscriber after a list of events for layout `lay`
has been delivered in order: a matching subscriber receives the events in
order until its capacity is reached; a non-matching subscriber is untouched. -/
def deliverSink (lay : List Nat) (evs : List Event) (s : Subscriber) : List Event :=
  if s.filter lay then (s.sink ++ evs).take (max s.sink.length s.capacity) else s.sink

/-- Index of the first archetype whose layout equals `lay`, if any. -/
def findArch (w : World) (lay : List Nat) : Option Nat :=
  (List.range w.archCount).find? (fun i => (getA w i).layout = lay)

/-- A fresh, empty archetype for layout `lay`. -/
def newArch (lay : List Nat) : Archetype :=
  ⟨lay, [], lay.map (fun _ => [])⟩

/-- Modelled from the spec: locate the archetype for `lay`, creating it (and
emitting `ArchetypeCreated`) if no archetype with that layout exists. -/
def ensureArch (w : World) (lay : List Nat) : Nat × World :=
  match findArch w lay with
  | some i => (i, w)
  | none =>
      let d := w.archCount
      let w1 : World :=
        { w with
          archCount := w.archCount + 1
          archs := fun j => if j = d then newArch lay else w.archs j }
      (d, notify w1 lay (.archetypeCreated lay))

/-- Append one row of values to a set of columns, one value per column in
position; missing positions are padded (unreachable for well-shaped input). -/
def appendCols : List (List Nat) → List Nat → List (List Nat)
  | [], _ => []
  | c :: cs, [] => (c ++ [0]) :: appendCols cs []
  | c :: cs, v :: vs => (c ++ [v]) :: appendCols cs vs

/-- Modelled from the spec: insert one row into the archetype at index `d`,
issuing a fresh id, appending to every column and the id column, pointing the
location index at the new row, and emitting `EntityInserted`. -/
def insertRowAt (w : World) (d : Nat) (row : List Nat) : Nat × World :=
  let id := w.nextId
  let a := getA w d
  let n := a.ids.length
  let w1 := setA w d { a with ids := a.ids ++ [id], cols := appendCols a.cols row }
  let w2 : World :=
    { w1 with
      locations := updLoc w1.locations id (some ⟨d, n⟩)
      nextId := w.nextId + 1 }
  (id, notify w2 a.layout (.entityInserted id d))

/-- Modelled from the spec: `World::push` — insert one entity with the given
layout and row of component values, returning its id. -/
def World.push (w : World) (lay : List Nat) (row : List Nat) : Nat × World :=
  insertRowAt (ensureArch w lay).2 (ensureArch w lay).1 row

/-- Modelled from the spec: `World::extend` (row-major) — insert a batch of
entities sharing one layout; the destination archetype is resolved once per
batch; returns the ordered sequence of assigned ids. -/
def extendFold (d : Nat) (acc : List Nat × World) : List (List Nat) → List Nat × World
  | [] => acc
  | row :: rows =>
      extendFold d
        (acc.1 ++ [(insertRowAt acc.2 d row).1], (insertRowAt acc.2 d row).2) rows

def World.extend (w : World) (lay : List Nat) (rows : List (List Nat)) :
    List Nat × World :=
  extendFold (ensureArch w lay).1 ([], (ensureArch w lay).2) rows

/-- Swap-remove at row `r`: the last element is moved into slot `r`, then the
length is truncated by one. -/
def swapRemoveList (l : List α) (r : Nat) : List α :=
  match l.getLast? with
  | none => []
  | some x => (l.set r x).dropLast

/-- Modelled from the spec: swap-remove row `r` of the archetype at index `i`
(all columns and the id column); when the removed row is not the last, the
location index entry of the displaced entity (previously at the last row) is
updated to the vacated row in the same operation. -/
def swapRemoveAt (w : World) (i : Nat) (r : Nat) : World :=
  let a := getA w i
  let last := a.ids.length - 1
  let lastId := a.ids.getD last 0
  let a' : Archetype :=
    { a with ids := swapRemoveList a.ids r, cols := a.cols.map (fun c => swapRemoveList c r) }
  let w1 := setA w i a'
  if r = last then w1
  else { w1 with locations := updLoc w1.locations lastId (some ⟨i, r⟩) }

/-- Swap-remove row `r` of archetype `s` and clear the location index entry of
the removed entity `id`. -/
def removeCore (w : World) (id s r : Nat) : World :=
  { swapRemoveAt w s r with
    locations := updLoc (swapRemoveAt w s r).locations id none }

/-- Modelled from the spec: `World::remove` — deletes an entity: fails silently
(returns `false`, world unchanged) if unknown, otherwise performs swap-remove,
clears the location index entry, and emits a removal event. -/
def World.remove (w : World) (id : Nat) : Bool × World :=
  match w.locations id with
  | none => (false, w)
  | some loc =>
      (true, notify (removeCore w id loc.archetype loc.row)
        (getA w loc.archetype).layout (.entityRemoved id loc.archetype))

/-- Index of the first occurrence of component type `t` in a layout. -/
def idxOfC (t : Nat) : List Nat → Option Nat
  | [] => none
  | c :: cs => if c = t then some 0 else (idxOfC t cs).map (· + 1)

/-- Value of component `t` for the entity at row `r` of archetype `a`, if the
layout has `t` and the row exists. -/
def compValueAt (a : Archetype) (t : Nat) (r : Nat) : Option Nat :=
  (idxOfC t a.layout).bind fun j => (a.cols.getD j [])[r]?

/-- Read one component of one entity through the location index. -/
def getComponent (w : World) (id : Nat) (t : Nat) : Option Nat :=
  match w.locations id with
  | none => none
  | some loc => compValueAt (getA w loc.archetype) t loc.row

/-- Overwrite one component of one entity in place (no structural change);
no-op when the entity or the component column is absent. -/
def setComponentW (w : World) (id : Nat) (t : Nat) (v : Nat) : World :=
  match w.locations id with
  | none => w
  | some loc =>
      let a := getA w loc.archetype
      match idxOfC t a.layout with
      | none => w
      | some j =>
          setA w loc.archetype
            { a with cols := a.cols.set j ((a.cols.getD j []).set loc.row v) }

/-- Modelled from the spec: `Entry` — a validated handle to one entity's
current row. -/
structure Entry where
  id : Nat
  location : EntityLocation
deriving DecidableEq, Repr

/-- Modelled from the spec: `World::entry` — returns absent if the id is
unknown or removed. -/
def World.entry (w : World) (id : Nat) : Option Entry :=
  (w.locations id).map (fun loc => ⟨id, loc⟩)

/-- Modelled from the spec: `Entry::get_component` — absent if the entity's
current archetype lacks the component type. -/
def Entry.getComponent (w : World) (e : Entry) (t : Nat) : Option Nat :=
  compValueAt (getA w e.location.archetype) t e.location.row

/-- Modelled from the spec: `Entry::get_component_mut` — the current value
together with a writer; absent if the entity's current archetype lacks the
component type. -/
def Entry.getComponentMut (w : World) (e : Entry) (t : Nat) :
    Option (Nat × (Nat → World)) :=
  (Entry.getComponent w e t).map (fun v => (v, fun v' => setComponentW w e.id t v'))

/-- Append a row for an existing entity `id` to the archetype at index `d`
(the first half of a migration). -/
def migAppend (w : World) (d id : Nat) (row : List Nat) : World :=
  setA w d
    { getA w d with
      ids := (getA w d).ids ++ [id]
      cols := appendCols (getA w d).cols row }

/-- Append a row for existing entity `id` to archetype `d` and point the
location index at the new row (the insert half of a migration, used to state
its correctness). -/
def migInsert (w : World) (d id : Nat) (row : List Nat) : World :=
  { migAppend w d id row with
    locations := updLoc w.locations id (some ⟨d, (getA w d).ids.length⟩) }

/-- Modelled from the spec: migration of one entity to a destination layout
(§4.1): find or create the destination archetype, build the new row (existing
component values copied, newly-added components initialized from `supply`),
append the new row, swap-remove the old row (updating the displaced entity's
location), then point the location index at the new (archetype, row). The
first component of the result is the intermediate world right after the append
(the entity is never absent from all archetypes); the second is the final
world. Migration to an identical layout is a no-op. -/
def migrateSteps (w : World) (id : Nat) (destLayout : List Nat)
    (supply : Nat → Nat) : World × World :=
  match w.locations id with
  | none => (w, w)
  | some loc =>
      if (getA w loc.archetype).layout = destLayout then (w, w)
      else
        let d := (ensureArch w destLayout).1
        let w0 := (ensureArch w destLayout).2
        let row := destLayout.map fun t =>
          (compValueAt (getA w loc.archetype) t loc.row).getD (supply t)
        let n := (getA w0 d).ids.length
        let w2 := swapRemoveAt (migAppend w0 d id row) loc.archetype loc.row
        let w3 : World := { w2 with locations := updLoc w2.locations id (some ⟨d, n⟩) }
        (migAppend w0 d id row,
         notify (notify w3 (getA w loc.archetype).layout (.entityRemoved id loc.archetype))
          destLayout (.entityInserted id d))

def migrate (w : World) (id : Nat) (destLayout : List Nat)
    (supply : Nat → Nat) : World :=
  (migrateSteps w id destLayout supply).2

/-- The destination layout for adding component `c`: unchanged if already
present, else extended by `c`. -/
def insertComp (c : Nat) (l : List Nat) : List Nat :=
  if c ∈ l then l else l ++ [c]

/-- Modelled from the spec: `Entry::add_component` — triggers a migration to
the layout extended with `c`, the new component initialized to `v`. The first
component of the result is the intermediate world of the migration. -/
def addComponentSteps (w : World) (id : Nat) (c : Nat) (v : Nat) : World × World :=
  match w.locations id with
  | none => (w, w)
  | some loc => migrateSteps w id (insertComp c (getA w loc.archetype).layout) (fun _ => v)

def addComponent (w : World) (id : Nat) (c : Nat) (v : Nat) : World :=
  (addComponentSteps w id c v).2

/-- Modelled from the spec: `Entry::remove_component` — triggers a migration to
the layout with `c` removed. The first component of the result is the
intermediate world of the migration. -/
def removeComponentSteps (w : World) (id : Nat) (c : Nat) : World × World :=
  match w.locations id with
  | none => (w, w)
  | some loc => migrateSteps w id ((getA w loc.archetype).layout.erase c) (fun _ => 0)

def removeComponent (w : World) (id : Nat) (c : Nat) : World :=
  (removeComponentSteps w id c).2

/-- Modelled from the spec: `Permissions` — a pair of sets over component type
ids: "may read" and "may write". -/
structure Permissions where
  read : Finset Nat
  write : Finset Nat
deriving DecidableEq

/-- Modelled from the spec: `World::split` over a finite component-type
universe — returns the requested view and the complementary view: the
complement reads everything not written by the request and writes everything
not read-or-written by the request. -/
def split (univ : Finset Nat) (p : Permissions) : Permissions × Permissions :=
  (p, ⟨univ \ p.write, univ \ (p.read ∪ p.write)⟩)

/-- Two `Permissions` are compatible for split iff neither's write set
intersects the other's read-or-write set. -/
def compatible (a b : Permissions) : Prop :=
  Disjoint a.write (b.read ∪ b.write) ∧ Disjoint b.write (a.read ∪ a.write)

/-- Modelled from the spec: access-control error for a permission-partition
access outside its granted rights (`ComponentAccessError`). -/
inductive ComponentAccessError where
  | accessDenied
deriving DecidableEq, Repr

/-- Modelled from the spec: `SubWorld` — a permission partition: a world view
carrying its granted `Permissions`, checked on every access. -/
structure SubWorld where
  world : World
  permissions : Permissions

/-- Modelled from the spec: component read through a partition — checked
against the partition's read set before any storage is touched. -/
def SubWorld.readComponent (sw : SubWorld) (id : Nat) (t : Nat) :
    Except ComponentAccessError (Option Nat) :=
  if t ∈ sw.permissions.read then .ok (getComponent sw.world id t)
  else .error .accessDenied

/-- Modelled from the spec: component write through a partition — checked
against the partition's write set before any storage is touched; a rejected
access leaves the partition (and the underlying store) unchanged. -/
def SubWorld.writeComponent (sw : SubWorld) (id : Nat) (t : Nat) (v : Nat) :
    Option ComponentAccessError × SubWorld :=
  if t ∈ sw.permissions.write then
    (none, { sw with world := setComponentW sw.world id t v })
  else (some .accessDenied, sw)

/-- Modelled from the spec: archetype enumeration through a partition —
restricted to archetypes whose layout intersects the partition's
readable/writable types. -/
def SubWorld.enumerateArchetypes (sw : SubWorld) : List Nat :=
  (List.range sw.world.archCount).filter fun i =>
    (getA sw.world i).layout.any fun t =>
      t ∈ sw.permissions.read ∨ t ∈ sw.permissions.write

/-- Shape-mismatch error for column-major batch insertion. -/
inductive ExtendError where
  | lengthMismatch
deriving DecidableEq, Repr

/-- All parallel component arrays of an SoA batch have equal length. -/
def soaLengthsOk (columns : List (List Nat)) : Bool :=
  columns.all fun c => c.length = (columns.headD []).length

/-- The rows encoded by a column-major batch. -/
def rowsOfSoa (columns : List (List Nat)) : List (List Nat) :=
  (List.range (columns.headD []).length).map fun i => columns.map fun c => c.getD i 0

/-- Modelled from the spec: `World::extend` with a column-major
(structure-of-arrays) batch — rejected with a length-mismatch error, before
any mutation, unless all parallel arrays have equal length. -/
def World.extendSoa (w : World) (lay : List Nat) (columns : List (List Nat)) :
    Except ExtendError (List Nat) × World :=
  if soaLengthsOk columns then
    (.ok (World.extend w lay (rowsOfSoa columns)).1, (World.extend w lay (rowsOfSoa columns)).2)
  else (.error .lengthMismatch, w)

/-- Modelled from the spec: `IntoSoa::into_soa` — the column-major encoding of
a row-major batch of arity `n`. -/
def intoSoa (n : Nat) (rows : List (List Nat)) : List (List Nat) :=
  (List.range n).map fun j => rows.map fun row => row.getD j 0

/-- One storage operation of the public surface. -/
inductive Op where
  | push (layout : List Nat) (row : List Nat)
  | extend (layout : List Nat) (rows : List (List Nat))
  | extendSoa (layout : List Nat) (columns : List (List Nat))
  | remove (id : Nat)
  | addComponent (id : Nat) (c : Nat) (v : Nat)
  | removeComponent (id : Nat) (c : Nat)

def applyOp (w : World) : Op → World
  | .push l r => (World.push w l r).2
  | .extend l rs => (World.extend w l rs).2
  | .extendSoa l cs => (World.extendSoa w l cs).2
  | .remove id => (World.remove w id).2
  | .addComponent id c v => addComponent w id c v
  | .removeComponent id c => removeComponent w id c

def applyOps (ops : List Op) : World := ops.foldl applyOp emptyWorld

/-- Well-formedness of a store: parallel column shape, and a consistent
location index — every entry points at a matching row (`locValid`), every row
is pointed at by its id's entry (`locComplete`), and only issued ids are
live (`locFresh`). -/
structure WF (w : World) : Prop where
  shape : ∀ i < w.archCount,
    (getA w i).cols.length = (getA w i).layout.length ∧
    ∀ j, (hj : j < (getA w i).cols.length) →
      ((getA w i).cols[j]).length = (getA w i).ids.length
  locValid : ∀ id loc, w.locations id = some loc →
    loc.archetype < w.archCount ∧
    ∃ hr : loc.row < (getA w loc.archetype).ids.length,
      (getA w loc.archetype).ids[loc.row] = id
  locComplete : ∀ i, i < w.archCount → ∀ r, (hr : r < (getA w i).ids.length) →
    w.locations ((getA w i).ids[r]) = some ⟨i, r⟩
  locFresh : ∀ id loc, w.locations id = some loc → id < w.nextId

/-- The location-index consistency property of the spec: `locate(id)` returns
`(a, r)` iff `a.ids[r] = id`, and returns absent for every id never issued. -/
def consistent (w : World) : Prop :=
  (∀ id a r, w.locations id = some ⟨a, r⟩ ↔
    ∃ (_ : a < w.archCount) (hr : r < (getA w a).ids.length), (getA w a).ids[r] = id) ∧
  (∀ id, w.nextId ≤ id → w.locations id = none)

/-- The entity is present in some archetype. -/
def present (w : World) (id : Nat) : Prop :=
  ∃ i, i < w.archCount ∧ id ∈ (getA w i).ids

/-! ### Low-level lemmas -/

theorem swapRemoveList_length {α : Type} (l : List α) (r : Nat) (hr : r < l.length) :
    (swapRemoveList l r).length = l.length - 1 := by
  have hne : l ≠ [] := by rintro rfl; simp at hr
  obtain ⟨x, hx⟩ := Option.isSome_iff_exists.mp (List.getLast?_isSome.mpr hne)
  simp [swapRemoveList, hx]

theorem swapRemoveList_getElem_ne {α : Type} {l : List α} {r j : Nat} (hr : r < l.length)
    (hne : j ≠ r) (hj : j < (swapRemoveList l r).length) (hj2 : j < l.length) :
    (swapRemoveList l r)[j] = l[j] := by
  have hne' : l ≠ [] := by rintro rfl; simp at hr
  obtain ⟨x, hx⟩ := Option.isSome_iff_exists.mp (List.getLast?_isSome.mpr hne')
  simp only [swapRemoveList, hx] at hj ⊢
  rw [List.getElem_dropLast, List.getElem_set_ne (by omega)]

theorem swapRemoveList_getElem_last {α : Type} {l : List α} {r : Nat} (hr : r + 1 < l.length)
    (hj : r < (swapRemoveList l r).length) (hl : l.length - 1 < l.length) :
    (swapRemoveList l r)[r] = l[l.length - 1] := by
  have hne' : l ≠ [] := by rintro rfl; simp at hr
  obtain ⟨x, hx⟩ := Option.isSome_iff_exists.mp (List.getLast?_isSome.mpr hne')
  have hxv : x = l[l.length - 1] := by
    have h2 := List.getLast?_eq_getElem? l
    rw [hx, List.getElem?_eq_getElem hl] at h2
    exact Option.some.inj h2
  simp only [swapRemoveList, hx] at hj ⊢
  rw [List.getElem_dropLast, List.getElem_set_self, hxv]

theorem appendCols_length (cols : List (List Nat)) (row : List Nat) :
    (appendCols cols row).length = cols.length := by
  induction cols generalizing row with
  | nil => simp [appendCols]
  | cons c cs ih =>
      cases row with
      | nil => simp [appendCols, ih]
      | cons v vs => simp [appendCols, ih]

theorem appendCols_getElem (cols : List (List Nat)) (row : List Nat) (j : Nat)
    (hj : j < (appendCols cols row).length) (hj2 : j < cols.length) :
    (appendCols cols row)[j] = cols[j] ++ [row.getD j 0] := by
  induction cols generalizing row j with
  | nil => simp at hj2
  | cons c cs ih =>
      cases row with
      | nil =>
          cases j with
          | zero => simp [appendCols]
          | succ k =>
              have hk : k < (appendCols cs []).length := by
                simpa [appendCols, appendCols_length] using hj2
              have hk2 : k < cs.length := by simpa using hj2
              simpa [appendCols] using ih [] k hk hk2
      | cons v vs =>
          cases j with
          | zero => simp [appendCols]
          | succ k =>
              have hk : k < (appendCols cs vs).length := by
                simpa [appendCols, appendCols_length] using hj2
              have hk2 : k < cs.length := by simpa using hj2
              simpa [appendCols] using ih vs k hk hk2

theorem idxOfC_some {t : Nat} {l : List Nat} {j : Nat} (h : idxOfC t l = some j) :
    ∃ hj : j < l.length, l[j] = t := by
  induction l generalizing j with
  | nil => simp [idxOfC] at h
  | cons c cs ih =>
      by_cases hc : c = t
      · simp only [idxOfC, if_pos hc, Option.some.injEq] at h
        subst h
        exact ⟨by simp, hc⟩
      · simp only [idxOfC, if_neg hc, Option.map_eq_some'] at h
        obtain ⟨k, hk, rfl⟩ := h
        obtain ⟨hk2, hk3⟩ := ih hk
        exact ⟨by simpa using Nat.succ_lt_succ hk2, by simpa using hk3⟩

theorem idxOfC_eq_none {t : Nat} {l : List Nat} (h : t ∉ l) : idxOfC t l = none := by
  induction l with
  | nil => rfl
  | cons c cs ih =>
      have hc : c ≠ t := fun e => h (by simp [e])
      have : t ∉ cs := fun m => h (by simp [m])
      simp [idxOfC, hc, ih this]

theorem idxOfC_isSome_of_mem {t : Nat} {l : List Nat} (h : t ∈ l) :
    (idxOfC t l).isSome := by
  induction l with
  | nil => simp at h
  | cons c cs ih =>
      by_cases hc : c = t
      · simp [idxOfC, hc]
      · have : t ∈ cs := by
          rcases List.mem_cons.mp h with h1 | h1
          · exact absurd h1.symm hc
          · exact h1
        simp only [idxOfC, if_neg hc]
        simpa using ih this

@[simp] theorem updLoc_self (m : LocationMap) (k : Nat) (v : Option EntityLocation) :
    updLoc m k v k = v := by simp [updLoc]

theorem updLoc_ne (m : LocationMap) (k : Nat) (v : Option EntityLocation)
    (i : Nat) (h : i ≠ k) : updLoc m k v i = m i := by simp [updLoc, h]

@[simp] theorem getA_setA_self (w : World) (i : Nat) (a : Archetype) :
    getA (setA w i a) i = a := by simp [getA, setA]

theorem getA_setA_ne (w : World) (i : Nat) (a : Archetype) (j : Nat) (h : j ≠ i) :
    getA (setA w i a) j = getA w j := by simp [getA, setA, h]

@[simp] theorem setA_archCount (w : World) (i : Nat) (a : Archetype) :
    (setA w i a).archCount = w.archCount := rfl

@[simp] theorem setA_locations (w : World) (i : Nat) (a : Archetype) :
    (setA w i a).locations = w.locations := rfl

@[simp] theorem setA_nextId (w : World) (i : Nat) (a : Archetype) :
    (setA w i a).nextId = w.nextId := rfl

@[simp] theorem notify_archs (w : World) (lay : List Nat) (e : Event) :
    (notify w lay e).archs = w.archs := rfl

@[simp] theorem notify_archCount (w : World) (lay : List Nat) (e : Event) :
    (notify w lay e).archCount = w.archCount := rfl

@[simp] theorem notify_locations (w : World) (lay : List Nat) (e : Event) :
    (notify w lay e).locations = w.locations := rfl

@[simp] theorem notify_nextId (w : World) (lay : List Nat) (e : Event) :
    (notify w lay e).nextId = w.nextId := rfl

theorem getA_notify (w : World) (lay : List Nat) (e : Event) (i : Nat) :
    getA (notify w lay e) i = getA w i := rfl

/-! ### Archetype lookup and creation -/

theorem findArch_some {w : World} {lay : List Nat} {i : Nat}
    (h : findArch w lay = some i) : i < w.archCount ∧ (getA w i).layout = lay :=
  ⟨List.mem_range.mp (List.mem_of_find?_eq_some h), by simpa using List.find?_some h⟩

theorem findArch_none {w : World} {lay : List Nat} (h : findArch w lay = none) :
    ∀ i, i < w.archCount → (getA w i).layout ≠ lay := by
  intro i hi
  simpa using List.find?_eq_none.mp h i (List.mem_range.mpr hi)

@[simp] theorem ensureArch_locations (w : World) (lay : List Nat) :
    (ensureArch w lay).2.locations = w.locations := by
  unfold ensureArch
  cases h : findArch w lay <;> rfl

@[simp] theorem ensureArch_nextId (w : World) (lay : List Nat) :
    (ensureArch w lay).2.nextId = w.nextId := by
  unfold ensureArch
  cases h : findArch w lay <;> rfl

theorem ensureArch_cases (w : World) (lay : List Nat) :
    (findArch w lay = some (ensureArch w lay).1 ∧ (ensureArch w lay).2 = w) ∨
    (findArch w lay = none ∧ (ensureArch w lay).1 = w.archCount ∧
      (ensureArch w lay).2.archCount = w.archCount + 1 ∧
      ∀ i, getA (ensureArch w lay).2 i =
        if i = w.archCount then newArch lay else getA w i) := by
  unfold ensureArch
  cases h : findArch w lay with
  | some i => exact Or.inl ⟨rfl, rfl⟩
  | none => exact Or.inr ⟨rfl, rfl, rfl, fun i => rfl⟩

theorem ensureArch_archCount_le (w : World) (lay : List Nat) :
    w.archCount ≤ (ensureArch w lay).2.archCount := by
  rcases ensureArch_cases w lay with ⟨_, h⟩ | ⟨_, _, h, _⟩
  · rw [h]
  · omega

theorem getA_ensureArch_old {w : World} {lay : List Nat} {i : Nat}
    (hi : i < w.archCount) : getA (ensureArch w lay).2 i = getA w i := by
  rcases ensureArch_cases w lay with ⟨_, h⟩ | ⟨_, _, _, h⟩
  · rw [h]
  · rw [h i, if_neg (by omega)]

theorem ensureArch_lt (w : World) (lay : List Nat) :
    (ensureArch w lay).1 < (ensureArch w lay).2.archCount := by
  rcases ensureArch_cases w lay with ⟨h, h2⟩ | ⟨_, h1, h2, _⟩
  · rw [h2]; exact (findArch_some h).1
  · omega

theorem ensureArch_layout (w : World) (lay : List Nat) :
    (getA (ensureArch w lay).2 (ensureArch w lay).1).layout = lay := by
  rcases ensureArch_cases w lay with ⟨h, h2⟩ | ⟨_, h1, _, h⟩
  · rw [h2]; exact (findArch_some h).2
  · rw [h, if_pos h1]; rfl

theorem ensureArch_old_index {w : World} {lay : List Nat} {i : Nat}
    (hi : i < (ensureArch w lay).2.archCount) (hne : i ≠ (ensureArch w lay).1) :
    i < w.archCount := by
  rcases ensureArch_cases w lay with ⟨_, h2⟩ | ⟨_, h1, h2, _⟩
  · rw [h2] at hi; exact hi
  · omega

theorem ensureArch_shape {w : World} {lay : List Nat} (hwf : WF w) :
    (getA (ensureArch w lay).2 (ensureArch w lay).1).cols.length
      = (getA (ensureArch w lay).2 (ensureArch w lay).1).layout.length ∧
    ∀ j, (hj : j < (getA (ensureArch w lay).2 (ensureArch w lay).1).cols.length) →
      ((getA (ensureArch w lay).2 (ensureArch w lay).1).cols[j]).length
        = (getA (ensureArch w lay).2 (ensureArch w lay).1).ids.length := by
  rcases ensureArch_cases w lay with ⟨h, h2⟩ | ⟨_, h1, _, h⟩
  · rw [h2]
    exact hwf.shape _ (by rw [h2] at *; exact (findArch_some h).1)
  · rw [h, if_pos h1]
    constructor
    · simp [newArch]
    · intro j hj
      simp only [newArch] at hj ⊢
      simp at hj
      simp [List.getElem_map]

theorem ensureArch_WF {w : World} {lay : List Nat} (hwf : WF w) :
    WF (ensureArch w lay).2 := by
  rcases ensureArch_cases w lay with ⟨_, h2⟩ | ⟨_, h1, h2, h⟩
  · rw [h2]; exact hwf
  · constructor
    · intro i hi
      rw [h i]
      by_cases hc : i = w.archCount
      · rw [if_pos hc]
        refine ⟨by simp [newArch], ?_⟩
        intro j hj
        simp only [newArch] at hj ⊢
        simp at hj
        simp [List.getElem_map]
      · rw [if_neg hc]
        exact hwf.shape i (by omega)
    · intro id loc hl
      rw [ensureArch_locations] at hl
      obtain ⟨ha, hr, he⟩ := hwf.locValid id loc hl
      rw [h loc.archetype, if_neg (by omega)]
      exact ⟨by omega, hr, he⟩
    · intro i hi r hr
      by_cases hc : i = w.archCount
      · have hz : (getA (ensureArch w lay).2 i).ids.length = 0 := by
          rw [h i, if_pos hc]; rfl
        omega
      · have hg : getA (ensureArch w lay).2 i = getA w i := by rw [h i, if_neg hc]
        rw [ensureArch_locations]
        simp only [hg] at hr ⊢
        rw [h2] at hi
        exact hwf.locComplete i (by omega) r hr
    · intro id loc hl
      rw [ensureArch_locations] at hl
      rw [ensureArch_nextId]
      exact hwf.locFresh id loc hl

/-! ### Single-row insertion -/

theorem fresh_not_in_arch {w : World} (hwf : WF w) {i r : Nat} (hi : i < w.archCount)
    (hr : r < (getA w i).ids.length) : (getA w i).ids[r] ≠ w.nextId := by
  intro e
  have h := hwf.locFresh _ _ (hwf.locComplete i hi r hr)
  rw [e] at h
  omega

@[simp] theorem insertRowAt_fst (w : World) (d : Nat) (row : List Nat) :
    (insertRowAt w d row).1 = w.nextId := rfl

@[simp] theorem insertRowAt_nextId (w : World) (d : Nat) (row : List Nat) :
    (insertRowAt w d row).2.nextId = w.nextId + 1 := rfl

@[simp] theorem insertRowAt_archCount (w : World) (d : Nat) (row : List Nat) :
    (insertRowAt w d row).2.archCount = w.archCount := rfl

@[simp] theorem insertRowAt_locations (w : World) (d : Nat) (row : List Nat) :
    (insertRowAt w d row).2.locations
      = updLoc w.locations w.nextId (some ⟨d, (getA w d).ids.length⟩) := rfl

theorem getA_insertRowAt_self (w : World) (d : Nat) (row : List Nat) :
    getA (insertRowAt w d row).2 d =
      { getA w d with
        ids := (getA w d).ids ++ [w.nextId]
        cols := appendCols (getA w d).cols row } := by
  simp [insertRowAt, notify, getA, setA]

theorem getA_insertRowAt_ne (w : World) (d : Nat) (row : List Nat) (i : Nat) (h : i ≠ d) :
    getA (insertRowAt w d row).2 i = getA w i := by
  simp only [insertRowAt]
  rw [getA_notify]
  exact getA_setA_ne _ _ _ _ h

theorem insertRowAt_WF {w : World} {d : Nat} {row : List Nat} (hwf : WF w)
    (hd : d < w.archCount) : WF (insertRowAt w d row).2 := by
  constructor
  · intro i hi
    rw [insertRowAt_archCount] at hi
    by_cases hc : i = d
    · subst hc
      rw [getA_insertRowAt_self]
      obtain ⟨hs1, hs2⟩ := hwf.shape i hi
      constructor
      · simpa [appendCols_length] using hs1
      · intro j hj
        simp only [appendCols_length] at hj
        rw [appendCols_getElem _ _ _ (by simpa [appendCols_length] using hj) hj]
        simp [hs2 j hj]
    · rw [getA_insertRowAt_ne _ _ _ _ hc]
      exact hwf.shape i hi
  · intro id loc hl
    rw [insertRowAt_locations] at hl
    rw [insertRowAt_archCount]
    by_cases hc : id = w.nextId
    · subst hc
      rw [updLoc_self] at hl
      cases hl
      rw [getA_insertRowAt_self]
      refine ⟨hd, by simp, ?_⟩
      exact List.getElem_concat_length _ _ _ rfl _
    · rw [updLoc_ne _ _ _ _ hc] at hl
      obtain ⟨ha, hr, he⟩ := hwf.locValid id loc hl
      by_cases hc2 : loc.archetype = d
      · simp only [hc2] at hr he
        simp only [hc2, getA_insertRowAt_self]
        refine ⟨by omega, by simp; omega, ?_⟩
        rw [List.getElem_append_left hr]
        exact he
      · rw [getA_insertRowAt_ne _ _ _ _ hc2]
        exact ⟨ha, hr, he⟩
  · intro i hi r hr
    rw [insertRowAt_archCount] at hi
    rw [insertRowAt_locations]
    by_cases hc : i = d
    · subst hc
      simp only [getA_insertRowAt_self] at hr ⊢
      simp only [List.length_append, List.length_cons, List.length_nil] at hr
      by_cases hc2 : r = (getA w i).ids.length
      · subst hc2
        rw [List.getElem_concat_length _ _ _ rfl]
        rw [updLoc_self]
      · have hr2 : r < (getA w i).ids.length := by omega
        rw [List.getElem_append_left hr2]
        rw [updLoc_ne _ _ _ _ (fresh_not_in_arch hwf hi hr2)]
        exact hwf.locComplete i hi r hr2
    · simp only [getA_insertRowAt_ne _ _ _ _ hc] at hr ⊢
      rw [updLoc_ne _ _ _ _ (fresh_not_in_arch hwf hi hr)]
      exact hwf.locComplete i hi r hr
  · intro id loc hl
    rw [insertRowAt_locations] at hl
    rw [insertRowAt_nextId]
    by_cases hc : id = w.nextId
    · omega
    · rw [updLoc_ne _ _ _ _ hc] at hl
      have := hwf.locFresh id loc hl
      omega

/-! ### Swap-removal -/

theorem notify_WF {w : World} {lay : List Nat} {e : Event} (h : WF w) :
    WF (notify w lay e) :=
  ⟨h.shape, h.locValid, h.locComplete, h.locFresh⟩

theorem row_id_inj {w : World} (hwf : WF w) {i r j q : Nat} (hi : i < w.archCount)
    (hj : j < w.archCount) (hr : r < (getA w i).ids.length) (hq : q < (getA w j).ids.length)
    (he : (getA w i).ids[r] = (getA w j).ids[q]) : i = j ∧ r = q := by
  have h1 := hwf.locComplete i hi r hr
  have h2 := hwf.locComplete j hj q hq
  rw [he, h2] at h1
  simp only [Option.some.injEq, EntityLocation.mk.injEq] at h1
  exact ⟨h1.1.symm, h1.2.symm⟩

theorem row_id_ne_of_loc {w : World} (hwf : WF w) {i r : Nat} (hi : i < w.archCount)
    (hr : r < (getA w i).ids.length) {id : Nat} {loc : EntityLocation}
    (hl : w.locations id = some loc) (hne : loc ≠ ⟨i, r⟩) : (getA w i).ids[r] ≠ id := by
  intro e
  have h1 := hwf.locComplete i hi r hr
  rw [e, hl] at h1
  exact hne (Option.some.inj h1)

@[simp] theorem swapRemoveAt_archCount (w : World) (i r : Nat) :
    (swapRemoveAt w i r).archCount = w.archCount := by
  unfold swapRemoveAt
  by_cases h : r = (getA w i).ids.length - 1 <;> simp [h]

@[simp] theorem swapRemoveAt_nextId (w : World) (i r : Nat) :
    (swapRemoveAt w i r).nextId = w.nextId := by
  unfold swapRemoveAt
  by_cases h : r = (getA w i).ids.length - 1 <;> simp [h]

theorem getA_swapRemoveAt_self (w : World) (i r : Nat) :
    getA (swapRemoveAt w i r) i =
      { getA w i with
        ids := swapRemoveList (getA w i).ids r
        cols := (getA w i).cols.map (fun c => swapRemoveList c r) } := by
  unfold swapRemoveAt
  dsimp only
  split <;> simp [getA, setA]

theorem getA_swapRemoveAt_ne (w : World) (i r j : Nat) (h : j ≠ i) :
    getA (swapRemoveAt w i r) j = getA w j := by
  unfold swapRemoveAt
  dsimp only
  split <;> simp [getA, setA, h]

theorem swapRemoveAt_locations_last (w : World) (i r : Nat)
    (h : r = (getA w i).ids.length - 1) :
    (swapRemoveAt w i r).locations = w.locations := by
  unfold swapRemoveAt
  simp [h]

theorem swapRemoveAt_locations_mid (w : World) (i r : Nat)
    (h : r ≠ (getA w i).ids.length - 1) :
    (swapRemoveAt w i r).locations
      = updLoc w.locations ((getA w i).ids.getD ((getA w i).ids.length - 1) 0)
          (some ⟨i, r⟩) := by
  unfold swapRemoveAt
  simp [h]

@[simp] theorem removeCore_archCount (w : World) (id s r : Nat) :
    (removeCore w id s r).archCount = w.archCount := by
  simp [removeCore]

@[simp] theorem removeCore_nextId (w : World) (id s r : Nat) :
    (removeCore w id s r).nextId = w.nextId := by
  simp [removeCore]

@[simp] theorem removeCore_locations (w : World) (id s r : Nat) :
    (removeCore w id s r).locations
      = updLoc (swapRemoveAt w s r).locations id none := rfl

theorem getA_removeCore (w : World) (id s r i : Nat) :
    getA (removeCore w id s r) i = getA (swapRemoveAt w s r) i := rfl

theorem removeCore_WF {w : World} (hwf : WF w) {id s r : Nat}
    (hl : w.locations id = some ⟨s, r⟩) : WF (removeCore w id s r) := by
  obtain ⟨hs, hrK, hid⟩ := hwf.locValid id ⟨s, r⟩ hl
  dsimp only at hs hrK hid
  refine ⟨?_, ?_, ?_, ?_⟩
  · -- shape
    intro i hi
    rw [removeCore_archCount] at hi
    simp only [getA_removeCore]
    by_cases hc : i = s
    · subst hc
      simp only [getA_swapRemoveAt_self]
      obtain ⟨hs1, hs2⟩ := hwf.shape i hi
      refine ⟨by simpa using hs1, ?_⟩
      intro j hj
      simp only [List.length_map] at hj
      simp only [List.getElem_map]
      rw [swapRemoveList_length _ _ (by rw [hs2 j hj]; exact hrK)]
      rw [swapRemoveList_length _ _ hrK]
      rw [hs2 j hj]
    · simp only [getA_swapRemoveAt_ne _ _ _ _ hc]
      exact hwf.shape i hi
  · -- locValid
    intro id2 loc2 hl2
    rw [removeCore_locations] at hl2
    rw [removeCore_archCount]
    simp only [getA_removeCore]
    by_cases hc : id2 = id
    · subst hc
      rw [updLoc_self] at hl2
      simp at hl2
    · rw [updLoc_ne _ _ _ _ hc] at hl2
      by_cases hcase : r = (getA w s).ids.length - 1
      · -- removed row was the last row
        rw [swapRemoveAt_locations_last _ _ _ hcase] at hl2
        obtain ⟨ha2, hr2, he2⟩ := hwf.locValid id2 loc2 hl2
        by_cases hc2 : loc2.archetype = s
        · simp only [hc2] at hr2 he2 ⊢
          have hner : loc2.row ≠ r := by
            intro e
            apply hc
            rw [← he2, ← hid]
            simp only [e]
          have hlen : (swapRemoveList (getA w s).ids r).length
              = (getA w s).ids.length - 1 := swapRemoveList_length _ _ hrK
          have hr3 : loc2.row < (getA w s).ids.length - 1 := by omega
          simp only [getA_swapRemoveAt_self]
          refine ⟨hs, ?_, ?_⟩
          · simpa [hlen] using hr3
          · rw [swapRemoveList_getElem_ne hrK hner (by omega) (by omega)]
            exact he2
        · simp only [getA_swapRemoveAt_ne _ _ _ _ hc2]
          exact ⟨ha2, hr2, he2⟩
      · -- removed row was not the last: a displaced entity exists
        rw [swapRemoveAt_locations_mid _ _ _ hcase] at hl2
        have hK1 : (getA w s).ids.length - 1 < (getA w s).ids.length := by omega
        have hgd : (getA w s).ids.getD ((getA w s).ids.length - 1) 0
            = (getA w s).ids[(getA w s).ids.length - 1] := List.getD_eq_getElem _ _ hK1
        have hlen : (swapRemoveList (getA w s).ids r).length
            = (getA w s).ids.length - 1 := swapRemoveList_length _ _ hrK
        by_cases hc3 : id2 = (getA w s).ids[(getA w s).ids.length - 1]
        · -- the displaced entity: now at row r
          rw [hgd] at hl2
          rw [← hc3, updLoc_self] at hl2
          cases hl2
          simp only [getA_swapRemoveAt_self]
          refine ⟨hs, ?_, ?_⟩
          · simp only [hlen]; omega
          · rw [swapRemoveList_getElem_last (by omega) (by omega) hK1]
            exact hc3.symm
        · rw [hgd, updLoc_ne _ _ _ _ hc3] at hl2
          obtain ⟨ha2, hr2, he2⟩ := hwf.locValid id2 loc2 hl2
          by_cases hc2 : loc2.archetype = s
          · simp only [hc2] at hr2 he2 ⊢
            have hner : loc2.row ≠ r := by
              intro e
              apply hc
              rw [← he2, ← hid]
              simp only [e]
            have hnel : loc2.row ≠ (getA w s).ids.length - 1 := by
              intro e
              apply hc3
              rw [← he2]
              simp only [e]
            simp only [getA_swapRemoveAt_self]
            refine ⟨hs, ?_, ?_⟩
            · simp only [hlen]; omega
            · rw [swapRemoveList_getElem_ne hrK hner (by omega) (by omega)]
              exact he2
          · simp only [getA_swapRemoveAt_ne _ _ _ _ hc2]
            exact ⟨ha2, hr2, he2⟩
  · -- locComplete
    intro i hi r2 hr2
    rw [removeCore_archCount] at hi
    simp only [getA_removeCore] at hr2 ⊢
    rw [removeCore_locations]
    by_cases hc : i = s
    · subst hc
      simp only [getA_swapRemoveAt_self] at hr2 ⊢
      have hlen : (swapRemoveList (getA w i).ids r).length
          = (getA w i).ids.length - 1 := swapRemoveList_length _ _ hrK
      simp only [hlen] at hr2
      by_cases hcase : r = (getA w i).ids.length - 1
      · -- removed last row: remaining rows keep their ids
        have hner : r2 ≠ r := by omega
        rw [swapRemoveList_getElem_ne hrK hner (by simp only [hlen]; omega) (by omega)]
        have hne2 : (getA w i).ids[r2] ≠ id :=
          row_id_ne_of_loc hwf hi (by omega) hl
            (by intro e; cases e; omega)
        rw [updLoc_ne _ _ _ _ hne2]
        rw [swapRemoveAt_locations_last _ _ _ hcase]
        exact hwf.locComplete i hi r2 (by omega)
      · have hK1 : (getA w i).ids.length - 1 < (getA w i).ids.length := by omega
        have hgd : (getA w i).ids.getD ((getA w i).ids.length - 1) 0
            = (getA w i).ids[(getA w i).ids.length - 1] := List.getD_eq_getElem _ _ hK1
        rw [swapRemoveAt_locations_mid _ _ _ hcase, hgd]
        by_cases hc2 : r2 = r
        · -- the vacated slot now holds the previously-last entity
          subst hc2
          rw [swapRemoveList_getElem_last (by omega) (by simp only [hlen]; omega) hK1]
          have hlne : (getA w i).ids[(getA w i).ids.length - 1] ≠ id :=
            row_id_ne_of_loc hwf hi hK1 hl
              (by intro e; cases e; omega)
          rw [updLoc_ne _ _ _ _ hlne, updLoc_self]
        · rw [swapRemoveList_getElem_ne hrK hc2 (by simp only [hlen]; omega) (by omega)]
          have hne2 : (getA w i).ids[r2] ≠ id :=
            row_id_ne_of_loc hwf hi (by omega) hl
              (by intro e; cases e; omega)
          have hne3 : (getA w i).ids[r2] ≠ (getA w i).ids[(getA w i).ids.length - 1] := by
            intro e
            have := (row_id_inj hwf hi hi (by omega) hK1 e).2
            omega
          rw [updLoc_ne _ _ _ _ hne2, updLoc_ne _ _ _ _ hne3]
          exact hwf.locComplete i hi r2 (by omega)
    · simp only [getA_swapRemoveAt_ne _ _ _ _ hc] at hr2 ⊢
      have hne2 : (getA w i).ids[r2] ≠ id :=
        row_id_ne_of_loc hwf hi hr2 hl
          (by intro e; cases e; exact hc rfl)
      rw [updLoc_ne _ _ _ _ hne2]
      by_cases hcase : r = (getA w s).ids.length - 1
      · rw [swapRemoveAt_locations_last _ _ _ hcase]
        exact hwf.locComplete i hi r2 hr2
      · have hK1 : (getA w s).ids.length - 1 < (getA w s).ids.length := by omega
        have hgd : (getA w s).ids.getD ((getA w s).ids.length - 1) 0
            = (getA w s).ids[(getA w s).ids.length - 1] := List.getD_eq_getElem _ _ hK1
        rw [swapRemoveAt_locations_mid _ _ _ hcase, hgd]
        have hne3 : (getA w i).ids[r2] ≠ (getA w s).ids[(getA w s).ids.length - 1] := by
          intro e
          have := (row_id_inj hwf hi hs hr2 hK1 e).1
          exact hc this
        rw [updLoc_ne _ _ _ _ hne3]
        exact hwf.locComplete i hi r2 hr2
  · -- locFresh
    intro id2 loc2 hl2
    rw [removeCore_locations] at hl2
    rw [removeCore_nextId]
    by_cases hc : id2 = id
    · subst hc
      rw [updLoc_self] at hl2
      simp at hl2
    · rw [updLoc_ne _ _ _ _ hc] at hl2
      by_cases hcase : r = (getA w s).ids.length - 1
      · rw [swapRemoveAt_locations_last _ _ _ hcase] at hl2
        exact hwf.locFresh id2 loc2 hl2
      · rw [swapRemoveAt_locations_mid _ _ _ hcase] at hl2
        have hK1 : (getA w s).ids.length - 1 < (getA w s).ids.length := by
          obtain ⟨_, hrK2, _⟩ := hwf.locValid id ⟨s, r⟩ hl
          dsimp only at hrK2
          omega
        by_cases hc3 : id2 = (getA w s).ids.getD ((getA w s).ids.length - 1) 0
        · rw [← hc3, updLoc_self] at hl2
          cases hl2
          have hgd : (getA w s).ids.getD ((getA w s).ids.length - 1) 0
              = (getA w s).ids[(getA w s).ids.length - 1] := List.getD_eq_getElem _ _ hK1
          rw [hc3, hgd]
          exact hwf.locFresh _ _ (hwf.locComplete s hs _ hK1)
        · rw [updLoc_ne _ _ _ _ hc3] at hl2
          exact hwf.locFresh id2 loc2 hl2

theorem remove_WF {w : World} (hwf : WF w) (id : Nat) : WF (World.remove w id).2 := by
  unfold World.remove
  cases hl : w.locations id with
  | none => exact hwf
  | some loc =>
      obtain ⟨s, r⟩ := loc
      exact notify_WF (removeCore_WF hwf hl)

/-! ### Migration -/

@[simp] theorem migAppend_archCount (w : World) (d id : Nat) (row : List Nat) :
    (migAppend w d id row).archCount = w.archCount := rfl

@[simp] theorem migAppend_locations (w : World) (d id : Nat) (row : List Nat) :
    (migAppend w d id row).locations = w.locations := rfl

@[simp] theorem migAppend_nextId (w : World) (d id : Nat) (row : List Nat) :
    (migAppend w d id row).nextId = w.nextId := rfl

theorem getA_migAppend_self (w : World) (d id : Nat) (row : List Nat) :
    getA (migAppend w d id row) d =
      { getA w d with
        ids := (getA w d).ids ++ [id]
        cols := appendCols (getA w d).cols row } := by
  simp [migAppend, getA, setA]

theorem getA_migAppend_ne (w : World) (d id : Nat) (row : List Nat) (i : Nat) (h : i ≠ d) :
    getA (migAppend w d id row) i = getA w i := by
  simp [migAppend, getA, setA, h]

theorem WF_of_structural {w w' : World} (hc : w'.archCount = w.archCount)
    (ha : ∀ i, getA w' i = getA w i) (hl : w'.locations = w.locations)
    (hn : w'.nextId = w.nextId) (h : WF w) : WF w' := by
  refine ⟨?_, ?_, ?_, ?_⟩
  · intro i hi
    rw [hc] at hi
    simp only [ha]
    exact h.shape i hi
  · intro id loc hloc
    rw [hl] at hloc
    rw [hc]
    simp only [ha]
    exact h.locValid id loc hloc
  · intro i hi r hr
    rw [hc] at hi
    simp only [ha] at hr ⊢
    rw [hl]
    exact h.locComplete i hi r hr
  · intro id loc hloc
    rw [hl] at hloc
    rw [hn]
    exact h.locFresh id loc hloc

theorem not_present_of_none {w : World} (hwf : WF w) {id : Nat}
    (h : w.locations id = none) : ∀ i, i < w.archCount → id ∉ (getA w i).ids := by
  intro i hi hm
  obtain ⟨r2, hr2, he⟩ := List.getElem_of_mem hm
  have hcomp := hwf.locComplete i hi r2 hr2
  rw [he, h] at hcomp
  cases hcomp

@[simp] theorem migInsert_archCount (w : World) (d id : Nat) (row : List Nat) :
    (migInsert w d id row).archCount = w.archCount := rfl

@[simp] theorem migInsert_nextId (w : World) (d id : Nat) (row : List Nat) :
    (migInsert w d id row).nextId = w.nextId := rfl

@[simp] theorem migInsert_locations (w : World) (d id : Nat) (row : List Nat) :
    (migInsert w d id row).locations
      = updLoc w.locations id (some ⟨d, (getA w d).ids.length⟩) := rfl

theorem getA_migInsert (w : World) (d id : Nat) (row : List Nat) (i : Nat) :
    getA (migInsert w d id row) i = getA (migAppend w d id row) i := rfl

theorem migInsert_WF {w : World} (hwf : WF w) {d id : Nat} {row : List Nat}
    (hd : d < w.archCount) (hid : id < w.nextId) (hfree : w.locations id = none)
    (habs : ∀ i, i < w.archCount → id ∉ (getA w i).ids) :
    WF (migInsert w d id row) := by
  have hidr : ∀ i, (hi : i < w.archCount) → ∀ r2, (hr2 : r2 < (getA w i).ids.length) →
      (getA w i).ids[r2] ≠ id := by
    intro i hi r2 hr2 e
    exact habs i hi (e ▸ List.getElem_mem hr2)
  refine ⟨?_, ?_, ?_, ?_⟩
  · intro i hi
    simp only [migInsert_archCount] at hi
    simp only [getA_migInsert]
    by_cases hc : i = d
    · subst hc
      simp only [getA_migAppend_self]
      obtain ⟨hs1, hs2⟩ := hwf.shape i hi
      refine ⟨by simpa [appendCols_length] using hs1, ?_⟩
      intro j hj
      simp only [appendCols_length] at hj
      rw [appendCols_getElem _ _ _ (by simpa [appendCols_length] using hj) hj]
      simp [hs2 j hj]
    · simp only [getA_migAppend_ne _ _ _ _ _ hc]
      exact hwf.shape i hi
  · intro id2 loc2 hl2
    simp only [migInsert_locations] at hl2
    simp only [migInsert_archCount, getA_migInsert]
    by_cases hc : id2 = id
    · subst hc
      rw [updLoc_self] at hl2
      cases hl2
      simp only [getA_migAppend_self]
      refine ⟨hd, by simp, ?_⟩
      exact List.getElem_concat_length _ _ _ rfl _
    · rw [updLoc_ne _ _ _ _ hc] at hl2
      obtain ⟨ha2, hr2, he2⟩ := hwf.locValid id2 loc2 hl2
      by_cases hc2 : loc2.archetype = d
      · simp only [hc2] at hr2 he2 ⊢
        simp only [getA_migAppend_self]
        refine ⟨hd, by simp; omega, ?_⟩
        rw [List.getElem_append_left hr2]
        exact he2
      · simp only [getA_migAppend_ne _ _ _ _ _ hc2]
        exact ⟨ha2, hr2, he2⟩
  · intro i hi r2 hr2
    simp only [migInsert_archCount] at hi
    simp only [getA_migInsert] at hr2 ⊢
    simp only [migInsert_locations]
    by_cases hc : i = d
    · subst hc
      simp only [getA_migAppend_self] at hr2 ⊢
      simp only [List.length_append, List.length_cons, List.length_nil] at hr2
      by_cases hc2 : r2 = (getA w i).ids.length
      · subst hc2
        rw [List.getElem_concat_length _ _ _ rfl]
        rw [updLoc_self]
      · have hr3 : r2 < (getA w i).ids.length := by omega
        rw [List.getElem_append_left hr3]
        rw [updLoc_ne _ _ _ _ (hidr i hi r2 hr3)]
        exact hwf.locComplete i hi r2 hr3
    · simp only [getA_migAppend_ne _ _ _ _ _ hc] at hr2 ⊢
      rw [updLoc_ne _ _ _ _ (hidr i hi r2 hr2)]
      exact hwf.locComplete i hi r2 hr2
  · intro id2 loc2 hl2
    simp only [migInsert_locations] at hl2
    simp only [migInsert_nextId]
    by_cases hc : id2 = id
    · omega
    · rw [updLoc_ne _ _ _ _ hc] at hl2
      exact hwf.locFresh id2 loc2 hl2

theorem updLoc_updLoc_same (m : LocationMap) (k : Nat) (a b : Option EntityLocation) :
    updLoc (updLoc m k a) k b = updLoc m k b := by
  funext x
  by_cases h : x = k <;> simp [updLoc, h]

theorem getComponent_of_loc {w : World} {id : Nat} {loc : EntityLocation}
    (h : w.locations id = some loc) (t : Nat) :
    getComponent w id t = compValueAt (getA w loc.archetype) t loc.row := by
  unfold getComponent
  rw [h]

theorem migrateSteps_spec {w : World} (hwf : WF w) {id s r : Nat} {destLayout : List Nat}
    (supply : Nat → Nat) (hl : w.locations id = some ⟨s, r⟩)
    (hne : (getA w s).layout ≠ destLayout) :
    WF (migrateSteps w id destLayout supply).2 ∧
    (migrateSteps w id destLayout supply).2.locations id
      = some ⟨(ensureArch w destLayout).1,
          (getA (ensureArch w destLayout).2 (ensureArch w destLayout).1).ids.length⟩ ∧
    (getA (migrateSteps w id destLayout supply).2 (ensureArch w destLayout).1).layout
      = destLayout ∧
    (∀ t j, idxOfC t destLayout = some j →
      getComponent (migrateSteps w id destLayout supply).2 id t
        = some ((compValueAt (getA w s) t r).getD (supply t))) ∧
    present (migrateSteps w id destLayout supply).1 id ∧
    present (migrateSteps w id destLayout supply).2 id ∧
    (migrateSteps w id destLayout supply).2.nextId = w.nextId ∧
    (migrateSteps w id destLayout supply).2.archCount
      = (ensureArch w destLayout).2.archCount := by
  obtain ⟨hs, hrK, hid⟩ := hwf.locValid id ⟨s, r⟩ hl
  dsimp only at hs hrK hid
  have hred : migrateSteps w id destLayout supply
      = ((migAppend (ensureArch w destLayout).2 (ensureArch w destLayout).1 id
            (destLayout.map fun t => (compValueAt (getA w s) t r).getD (supply t))),
         (notify (notify
            { swapRemoveAt (migAppend (ensureArch w destLayout).2 (ensureArch w destLayout).1 id
                  (destLayout.map fun t => (compValueAt (getA w s) t r).getD (supply t))) s r with
              locations :=
                updLoc (swapRemoveAt (migAppend (ensureArch w destLayout).2
                    (ensureArch w destLayout).1 id
                    (destLayout.map fun t =>
                      (compValueAt (getA w s) t r).getD (supply t))) s r).locations
                  id (some ⟨(ensureArch w destLayout).1,
                    (getA (ensureArch w destLayout).2 (ensureArch w destLayout).1).ids.length⟩) }
            (getA w s).layout (.entityRemoved id s))
            destLayout (.entityInserted id (ensureArch w destLayout).1))) := by
    unfold migrateSteps migAppend
    rw [hl]
    dsimp only
    rw [if_neg hne]
  rw [hred]
  dsimp only
  set d := (ensureArch w destLayout).1 with hdd
  set w0 := (ensureArch w destLayout).2 with hw0d
  set n := (getA w0 d).ids.length with hnd
  set row := destLayout.map (fun t => (compValueAt (getA w s) t r).getD (supply t)) with hrowd
  set w1 := migAppend w0 d id row with hw1d
  set w2 := swapRemoveAt w1 s r with hw2d
  have hwf0 : WF w0 := ensureArch_WF hwf
  have hdlt : d < w0.archCount := ensureArch_lt w destLayout
  have hlayd : (getA w0 d).layout = destLayout := ensureArch_layout w destLayout
  have hsw0 : getA w0 s = getA w s := getA_ensureArch_old hs
  have hds : d ≠ s := by
    intro e
    apply hne
    rw [← hsw0, ← e]
    exact hlayd
  have hsd : s ≠ d := Ne.symm hds
  have hloc0 : w0.locations = w.locations := ensureArch_locations w destLayout
  have hnext0 : w0.nextId = w.nextId := ensureArch_nextId w destLayout
  have hl0 : w0.locations id = some ⟨s, r⟩ := by rw [hloc0]; exact hl
  have hA1s : getA w1 s = getA w s := by
    rw [hw1d, getA_migAppend_ne _ _ _ _ _ hsd, hsw0]
  have hA1s0 : getA w1 s = getA w0 s := by rw [hA1s, hsw0]
  have hA1d : getA w1 d
      = { getA w0 d with
          ids := (getA w0 d).ids ++ [id]
          cols := appendCols (getA w0 d).cols row } := by
    rw [hw1d]
    exact getA_migAppend_self w0 d id row
  have hA2d : getA w2 d = getA w1 d := by
    rw [hw2d]
    exact getA_swapRemoveAt_ne _ _ _ _ hds
  have harch1 : w1.archCount = w0.archCount := by rw [hw1d]; rfl
  have harch2 : w2.archCount = w0.archCount := by
    rw [hw2d, swapRemoveAt_archCount, harch1]
  have hnext2 : w2.nextId = w.nextId := by
    rw [hw2d, swapRemoveAt_nextId, hw1d, migAppend_nextId, hnext0]
  have hloc1 : w1.locations = w.locations := by
    rw [hw1d, migAppend_locations, hloc0]
  have hswloc : (swapRemoveAt w1 s r).locations = (swapRemoveAt w0 s r).locations := by
    by_cases hcase : r = (getA w s).ids.length - 1
    · rw [swapRemoveAt_locations_last _ _ _ (by rw [hA1s]; exact hcase)]
      rw [swapRemoveAt_locations_last _ _ _ (by rw [hsw0]; exact hcase)]
      rw [hloc1, hloc0]
    · rw [swapRemoveAt_locations_mid _ _ _ (by rw [hA1s]; exact hcase)]
      rw [swapRemoveAt_locations_mid _ _ _ (by rw [hsw0]; exact hcase)]
      rw [hA1s, hsw0, hloc1, hloc0]
  have hR : WF (removeCore w0 id s r) := removeCore_WF hwf0 hl0
  have hfreeR : (removeCore w0 id s r).locations id = none := by
    rw [removeCore_locations, updLoc_self]
  have hgRd : getA (removeCore w0 id s r) d = getA w0 d := by
    rw [getA_removeCore]
    exact getA_swapRemoveAt_ne _ _ _ _ hds
  have hidlt : id < (removeCore w0 id s r).nextId := by
    rw [removeCore_nextId, hnext0]
    exact hwf.locFresh id _ hl
  have habs : ∀ i, i < (removeCore w0 id s r).archCount →
      id ∉ (getA (removeCore w0 id s r) i).ids := not_present_of_none hR hfreeR
  have hdR : d < (removeCore w0 id s r).archCount := by
    rw [removeCore_archCount]
    exact hdlt
  have hI : WF (migInsert (removeCore w0 id s r) d id row) :=
    migInsert_WF hR hdR hidlt hfreeR habs
  have hWF : WF { w2 with locations := updLoc w2.locations id (some ⟨d, n⟩) } := by
    apply WF_of_structural _ _ _ _ hI
    · show w2.archCount = _
      rw [harch2]
      simp
    · intro i
      show getA w2 i = _
      rw [getA_migInsert]
      by_cases hc : i = d
      · subst hc
        rw [getA_migAppend_self, hgRd, hA2d, hA1d]
      · rw [getA_migAppend_ne _ _ _ _ _ hc, getA_removeCore]
        by_cases hc2 : i = s
        · subst hc2
          rw [hw2d, getA_swapRemoveAt_self, getA_swapRemoveAt_self, hA1s0]
        · rw [hw2d, getA_swapRemoveAt_ne _ _ _ _ hc2, getA_swapRemoveAt_ne _ _ _ _ hc2]
          rw [hw1d, getA_migAppend_ne _ _ _ _ _ hc]
    · show updLoc w2.locations id (some ⟨d, n⟩) = _
      rw [migInsert_locations, removeCore_locations, updLoc_updLoc_same, hgRd, ← hnd]
      rw [hw2d, hswloc]
    · show w2.nextId = _
      rw [hnext2]
      simp [hnext0]
  have hFloc : (notify (notify { w2 with locations := updLoc w2.locations id (some ⟨d, n⟩) }
        (getA w s).layout (.entityRemoved id s))
        destLayout (.entityInserted id d)).locations id = some ⟨d, n⟩ := by
    simp only [notify_locations]
    show updLoc w2.locations id (some ⟨d, n⟩) id = _
    rw [updLoc_self]
  refine ⟨notify_WF (notify_WF hWF), hFloc, ?_, ?_, ?_, ?_, ?_, ?_⟩
  · show (getA { w2 with locations := updLoc w2.locations id (some ⟨d, n⟩) } d).layout = _
    show (getA w2 d).layout = _
    rw [hA2d, hA1d]
    exact hlayd
  · intro t j hj
    rw [getComponent_of_loc hFloc]
    dsimp only
    show compValueAt (getA w2 d) t n = _
    rw [hA2d, hA1d]
    obtain ⟨hjlt, hjt⟩ := idxOfC_some hj
    obtain ⟨hsh1, hsh2⟩ := hwf0.shape d hdlt
    have hjc : j < (getA w0 d).cols.length := by
      rw [hsh1, hlayd]
      exact hjlt
    simp only [compValueAt]
    rw [hlayd, hj]
    dsimp only [Option.bind]
    rw [List.getD_eq_getElem _ _ (by rw [appendCols_length]; exact hjc)]
    rw [appendCols_getElem _ _ _ (by rw [appendCols_length]; exact hjc) hjc]
    have hln : ((getA w0 d).cols[j]).length = n := by
      rw [hsh2 j hjc, hnd]
    rw [List.getElem?_eq_getElem (by simp [hln])]
    rw [List.getElem_concat_length _ _ _ hln.symm]
    rw [hrowd]
    rw [List.getD_eq_getElem _ _ (by simpa using hjlt), List.getElem_map]
    rw [hjt]
    rfl
  · refine ⟨d, ?_, ?_⟩
    · rw [harch1]
      exact hdlt
    · rw [hA1d]
      simp
  · refine ⟨d, ?_, ?_⟩
    · show d < w2.archCount
      rw [harch2]
      exact hdlt
    · show id ∈ (getA w2 d).ids
      rw [hA2d, hA1d]
      simp
  · show w2.nextId = w.nextId
    exact hnext2
  · show w2.archCount = w0.archCount
    exact harch2

/-! ### Well-formedness of every operation -/

theorem migrateSteps_WF {w : World} (hwf : WF w) (id : Nat) (dl : List Nat)
    (supply : Nat → Nat) : WF (migrateSteps w id dl supply).2 := by
  cases hl : w.locations id with
  | none =>
      unfold migrateSteps
      rw [hl]
      exact hwf
  | some loc =>
      obtain ⟨s, r⟩ := loc
      by_cases heq : (getA w s).layout = dl
      · unfold migrateSteps
        rw [hl]
        dsimp only
        rw [if_pos heq]
        exact hwf
      · exact (migrateSteps_spec hwf supply hl heq).1

theorem addComponent_WF {w : World} (hwf : WF w) (id c v : Nat) :
    WF (addComponent w id c v) := by
  unfold addComponent addComponentSteps
  cases hl : w.locations id with
  | none => exact hwf
  | some loc => exact migrateSteps_WF hwf id _ _

theorem removeComponent_WF {w : World} (hwf : WF w) (id c : Nat) :
    WF (removeComponent w id c) := by
  unfold removeComponent removeComponentSteps
  cases hl : w.locations id with
  | none => exact hwf
  | some loc => exact migrateSteps_WF hwf id _ _

theorem push_WF {w : World} (hwf : WF w) (lay : List Nat) (row : List Nat) :
    WF (World.push w lay row).2 := by
  unfold World.push
  exact insertRowAt_WF (ensureArch_WF hwf) (ensureArch_lt w lay)

theorem extendFold_WF (d : Nat) : ∀ (rows : List (List Nat)) (acc : List Nat × World),
    WF acc.2 → d < acc.2.archCount → WF (extendFold d acc rows).2 := by
  intro rows
  induction rows with
  | nil =>
      intro acc h _
      exact h
  | cons rrow rs ih =>
      intro acc h hd
      exact ih _ (insertRowAt_WF h hd) (by rw [insertRowAt_archCount]; exact hd)

theorem extend_WF {w : World} (hwf : WF w) (lay : List Nat) (rows : List (List Nat)) :
    WF (World.extend w lay rows).2 := by
  unfold World.extend
  exact extendFold_WF (ensureArch w lay).1 rows ([], (ensureArch w lay).2)
    (ensureArch_WF hwf) (ensureArch_lt w lay)

theorem extendSoa_WF {w : World} (hwf : WF w) (lay : List Nat) (cols : List (List Nat)) :
    WF (World.extendSoa w lay cols).2 := by
  unfold World.extendSoa
  split
  · exact extend_WF hwf _ _
  · exact hwf

theorem emptyWorld_WF : WF emptyWorld := by
  refine ⟨?_, ?_, ?_, ?_⟩
  · intro i hi
    simp [emptyWorld] at hi
  · intro id loc h
    exact Option.noConfusion h
  · intro i hi
    simp [emptyWorld] at hi
  · intro id loc h
    exact Option.noConfusion h

theorem applyOp_WF {w : World} (hwf : WF w) (op : Op) : WF (applyOp w op) := by
  cases op with
  | push l row => exact push_WF hwf l row
  | extend l rows => exact extend_WF hwf l rows
  | extendSoa l cols => exact extendSoa_WF hwf l cols
  | remove id => exact remove_WF hwf id
  | addComponent id c v => exact addComponent_WF hwf id c v
  | removeComponent id c => exact removeComponent_WF hwf id c

theorem foldl_applyOp_WF (ops : List Op) : ∀ (w : World), WF w → WF (ops.foldl applyOp w) := by
  induction ops with
  | nil =>
      intro w h
      exact h
  | cons o os ih =>
      intro w h
      exact ih _ (applyOp_WF h o)

theorem applyOps_WF (ops : List Op) : WF (applyOps ops) :=
  foldl_applyOp_WF ops emptyWorld emptyWorld_WF

theorem consistent_of_WF {w : World} (hwf : WF w) : consistent w := by
  constructor
  · intro id a r
    constructor
    · intro h
      obtain ⟨h1, h2, h3⟩ := hwf.locValid id ⟨a, r⟩ h
      exact ⟨h1, h2, h3⟩
    · rintro ⟨ha, hr, he⟩
      have h := hwf.locComplete a ha r hr
      rw [he] at h
      exact h
  · intro id hge
    cases hc : w.locations id with
    | none => rfl
    | some loc =>
        have := hwf.locFresh id loc hc
        omega

/-! ### Claim theorems -/

/-- C1: for every sequence of push/extend/remove/migrate operations starting
from the empty store, the location index is consistent after each operation:
`locate(id)` returns `(a, r)` iff `a.ids[r] = id` (so there is exactly one
such entry per live id), and `locate` returns absent for every id that was
never issued or has been removed. -/
theorem claim1_location_index_consistent (ops : List Op) :
    consistent (applyOps ops) :=
  consistent_of_WF (applyOps_WF ops)

theorem claim1_witness :
    consistent (applyOps [.push [0, 1] [5, 7], .extend [0, 1] [[1, 2], [3, 4]], .remove 1]) :=
  claim1_location_index_consistent [.push [0, 1] [5, 7], .extend [0, 1] [[1, 2], [3, 4]], .remove 1]

/-- C2: for every requested permissions set over any finite component-type
universe, the complementary permissions computed by split are compatible for
split with the request: the complement's write set shares no element with the
request's read-or-write set, and the request's write set shares no element
with the complement's read-or-write set. -/
theorem claim2_split_disjoint (univ : Finset Nat) (p : Permissions) :
    compatible (split univ p).1 (split univ p).2 := by
  unfold split compatible
  dsimp only
  constructor
  · rw [Finset.disjoint_union_right]
    refine ⟨Finset.sdiff_disjoint.symm, ?_⟩
    exact (Finset.sdiff_disjoint.mono_right Finset.subset_union_right).symm
  · exact Finset.sdiff_disjoint

/-- C3: a component access through a permission partition whose requested
component type lies outside the partition's read set (for a read) or write set
(for a write) fails with an access-control error, not a crash, before any
storage is touched: the read returns the error, and the rejected write returns
the error together with the partition (hence the underlying store) unchanged. -/
theorem claim3_access_control (sw : SubWorld) (id t v : Nat) :
    (t ∉ sw.permissions.read →
      SubWorld.readComponent sw id t = .error .accessDenied) ∧
    (t ∉ sw.permissions.write →
      SubWorld.writeComponent sw id t v = (some .accessDenied, sw)) := by
  constructor
  · intro h
    unfold SubWorld.readComponent
    rw [if_neg h]
  · intro h
    unfold SubWorld.writeComponent
    rw [if_neg h]

theorem claim3_witness :
    SubWorld.readComponent ⟨emptyWorld, ⟨∅, ∅⟩⟩ 0 2 = .error .accessDenied ∧
    SubWorld.writeComponent ⟨emptyWorld, ⟨∅, ∅⟩⟩ 0 2 5
      = (some .accessDenied, ⟨emptyWorld, ⟨∅, ∅⟩⟩) :=
  ⟨(claim3_access_control ⟨emptyWorld, ⟨∅, ∅⟩⟩ 0 2 5).1 (by decide),
   (claim3_access_control ⟨emptyWorld, ⟨∅, ∅⟩⟩ 0 2 5).2 (by decide)⟩

/-- C6: a column-major (structure-of-arrays) batch whose parallel component
arrays do not all have equal length is rejected with a length-mismatch error
before any mutation occurs: the result is the error paired with the store
exactly as it was, so no entity is inserted and no id is issued. -/
theorem claim6_soa_mismatch_rejected (w : World) (lay : List Nat)
    (columns : List (List Nat)) (h : soaLengthsOk columns = false) :
    World.extendSoa w lay columns = (.error .lengthMismatch, w) := by
  unfold World.extendSoa
  rw [if_neg (by simp [h])]

theorem claim6_witness :
    World.extendSoa emptyWorld [0, 1] [[1], [2, 3]]
      = (.error .lengthMismatch, emptyWorld) :=
  claim6_soa_mismatch_rejected emptyWorld [0, 1] [[1], [2, 3]] (by decide)

/-- C7: entry lookup of an unknown or removed id returns an absent value
rather than an error or crash, and component access through a live entity's
entry whose current archetype layout lacks the requested component type
returns absent, for both the read variant and the mutable variant. -/
theorem claim7_not_found_absent (w : World) (id t : Nat) :
    (w.locations id = none → World.entry w id = none) ∧
    (∀ e : Entry, World.entry w id = some e →
      t ∉ (getA w e.location.archetype).layout →
      Entry.getComponent w e t = none ∧ Entry.getComponentMut w e t = none) := by
  constructor
  · intro h
    unfold World.entry
    rw [h]
    rfl
  · intro e he ht
    have h1 : Entry.getComponent w e t = none := by
      unfold Entry.getComponent compValueAt
      rw [idxOfC_eq_none ht]
      rfl
    refine ⟨h1, ?_⟩
    unfold Entry.getComponentMut
    rw [h1]
    rfl

theorem claim7_witness :
    World.entry emptyWorld 3 = none ∧
    Entry.getComponent (World.push emptyWorld [2] [9]).2 ⟨0, ⟨0, 0⟩⟩ 5 = none ∧
    Entry.getComponentMut (World.push emptyWorld [2] [9]).2 ⟨0, ⟨0, 0⟩⟩ 5 = none := by
  refine ⟨(claim7_not_found_absent emptyWorld 3 5).1 rfl, ?_, ?_⟩
  · exact ((claim7_not_found_absent (World.push emptyWorld [2] [9]).2 0 5).2
      ⟨0, ⟨0, 0⟩⟩ (by decide) (by decide)).1
  · exact ((claim7_not_found_absent (World.push emptyWorld [2] [9]).2 0 5).2
      ⟨0, ⟨0, 0⟩⟩ (by decide) (by decide)).2

theorem intoSoa_lengths (n : Nat) (rows : List (List Nat)) :
    ∀ c ∈ intoSoa n rows, c.length = rows.length := by
  intro c hc
  simp only [intoSoa, List.mem_map] at hc
  obtain ⟨j, hj, rfl⟩ := hc
  simp

theorem soaLengthsOk_intoSoa (n : Nat) (rows : List (List Nat)) :
    soaLengthsOk (intoSoa n rows) = true := by
  unfold soaLengthsOk
  rw [List.all_eq_true]
  intro c hc
  cases hI : intoSoa n rows with
  | nil =>
      rw [hI] at hc
      simp at hc
  | cons c0 cs =>
      have h0 : c0.length = rows.length :=
        intoSoa_lengths n rows c0 (by rw [hI]; exact List.mem_cons_self _ _)
      have h1 : c.length = rows.length := intoSoa_lengths n rows c hc
      simp [h0, h1]

theorem rowsOfSoa_intoSoa {n : Nat} (rows : List (List Nat)) (hn : 0 < n)
    (hshape : ∀ row ∈ rows, row.length = n) :
    rowsOfSoa (intoSoa n rows) = rows := by
  unfold rowsOfSoa
  have hm : ((intoSoa n rows).headD []).length = rows.length := by
    cases hI : intoSoa n rows with
    | nil =>
        have hlen : (intoSoa n rows).length = n := by simp [intoSoa]
        rw [hI] at hlen
        simp at hlen
        omega
    | cons c0 cs =>
        have h0 : c0.length = rows.length :=
          intoSoa_lengths n rows c0 (by rw [hI]; exact List.mem_cons_self _ _)
        simp [h0]
  rw [hm]
  apply List.ext_getElem
  · simp
  · intro i h1 h2
    simp only [List.getElem_map, List.getElem_range]
    apply List.ext_getElem
    · simp only [List.length_map, intoSoa, List.length_range]
      exact (hshape _ (List.getElem_mem h2)).symm
    · intro j hj1 hj2
      simp only [intoSoa, List.getElem_map, List.getElem_range]
      rw [List.getD_eq_getElem _ _ (by simpa using h2), List.getElem_map]
      rw [List.getD_eq_getElem _ _ hj2]

/-- C10: extending a world with a row-major batch and extending an identical
world with the equivalent column-major structure-of-arrays encoding (via
into_soa) produce the same outcome: the same assigned ids and the same final
world, hence the same number of new entities and the same values readable
back through every entry. -/
theorem claim10_soa_row_equiv (w : World) (lay : List Nat) (rows : List (List Nat))
    (hn : 0 < lay.length) (hshape : ∀ row ∈ rows, row.length = lay.length) :
    World.extendSoa w lay (intoSoa lay.length rows)
      = (.ok (World.extend w lay rows).1, (World.extend w lay rows).2) := by
  unfold World.extendSoa
  rw [if_pos (soaLengthsOk_intoSoa _ _)]
  rw [rowsOfSoa_intoSoa rows hn hshape]

theorem claim10_witness :
    World.extendSoa emptyWorld [0, 1] (intoSoa ([0, 1] : List Nat).length [[1, 2], [3, 4]])
      = (.ok (World.extend emptyWorld [0, 1] [[1, 2], [3, 4]]).1,
         (World.extend emptyWorld [0, 1] [[1, 2], [3, 4]]).2) :=
  claim10_soa_row_equiv emptyWorld [0, 1] [[1, 2], [3, 4]] (by decide) (by decide)

theorem extendFold_spec (d : Nat) : ∀ (rows : List (List Nat)) (acc : List Nat × World),
    (extendFold d acc rows).1 = acc.1 ++ List.range' acc.2.nextId rows.length ∧
    (extendFold d acc rows).2.nextId = acc.2.nextId + rows.length ∧
    (extendFold d acc rows).2.archCount = acc.2.archCount ∧
    (∀ i, i ≠ d → getA (extendFold d acc rows).2 i = getA acc.2 i) ∧
    (getA (extendFold d acc rows).2 d).layout = (getA acc.2 d).layout ∧
    (getA (extendFold d acc rows).2 d).ids
      = (getA acc.2 d).ids ++ List.range' acc.2.nextId rows.length ∧
    (getA (extendFold d acc rows).2 d).cols.length = (getA acc.2 d).cols.length ∧
    (∀ j, j < (getA acc.2 d).cols.length →
      (getA (extendFold d acc rows).2 d).cols.getD j []
        = (getA acc.2 d).cols.getD j [] ++ rows.map (fun rr => rr.getD j 0)) ∧
    (∀ x, (∀ k, k < rows.length → x ≠ acc.2.nextId + k) →
      (extendFold d acc rows).2.locations x = acc.2.locations x) ∧
    (∀ k, k < rows.length → (extendFold d acc rows).2.locations (acc.2.nextId + k)
      = some ⟨d, (getA acc.2 d).ids.length + k⟩) := by
  intro rows
  induction rows with
  | nil =>
      intro acc
      refine ⟨by simp [extendFold], by simp [extendFold], by simp [extendFold],
        fun i _ => by simp [extendFold], by simp [extendFold], by simp [extendFold],
        by simp [extendFold], fun j _ => by simp [extendFold],
        fun x _ => by simp [extendFold],
        fun k hk => absurd hk (Nat.not_lt_zero k)⟩
  | cons row rs ih =>
      intro acc
      simp only [extendFold]
      obtain ⟨ih1, ih2, ih3, ih4, ih5, ih6, ih7, ih8, ih9, ih10⟩ :=
        ih (acc.1 ++ [(insertRowAt acc.2 d row).1], (insertRowAt acc.2 d row).2)
      dsimp only at ih1 ih2 ih3 ih4 ih5 ih6 ih7 ih8 ih9 ih10
      refine ⟨?_, ?_, ?_, ?_, ?_, ?_, ?_, ?_, ?_, ?_⟩
      · rw [ih1, insertRowAt_fst, insertRowAt_nextId, List.append_assoc,
          List.singleton_append, List.length_cons, List.range'_succ]
      · rw [ih2, insertRowAt_nextId, List.length_cons]
        omega
      · rw [ih3, insertRowAt_archCount]
      · intro i hi
        rw [ih4 i hi, getA_insertRowAt_ne _ _ _ _ hi]
      · rw [ih5]
        simp only [getA_insertRowAt_self]
      · rw [ih6]
        simp only [getA_insertRowAt_self, insertRowAt_nextId]
        rw [List.append_assoc, List.singleton_append, List.length_cons, List.range'_succ]
      · rw [ih7]
        simp only [getA_insertRowAt_self]
        rw [appendCols_length]
      · intro j hj
        have hj2 : j < (getA (insertRowAt acc.2 d row).2 d).cols.length := by
          simp only [getA_insertRowAt_self]
          rw [appendCols_length]
          exact hj
        have hga : (getA (insertRowAt acc.2 d row).2 d).cols.getD j []
            = (getA acc.2 d).cols.getD j [] ++ [row.getD j 0] := by
          simp only [getA_insertRowAt_self]
          rw [List.getD_eq_getElem _ _ (by rw [appendCols_length]; exact hj),
            appendCols_getElem _ _ _ (by rw [appendCols_length]; exact hj) hj,
            List.getD_eq_getElem _ _ hj]
        rw [ih8 j hj2, hga, List.append_assoc, List.singleton_append, List.map_cons]
      · intro x hx
        rw [ih9 x ?later]
        · rw [insertRowAt_locations,
            updLoc_ne _ _ _ _ (by have := hx 0 (by simp); omega)]
        case later =>
          intro k hk
          rw [insertRowAt_nextId]
          have := hx (k + 1) (by simp; omega)
          omega
      · intro k hk
        cases k with
        | zero =>
            rw [ih9 (acc.2.nextId + 0) ?fresh]
            · rw [insertRowAt_locations, Nat.add_zero, updLoc_self, Nat.add_zero]
            case fresh =>
              intro k2 hk2
              rw [insertRowAt_nextId]
              omega
        | succ k2 =>
            have h10 := ih10 k2 (by simp at hk; omega)
            rw [insertRowAt_nextId] at h10
            simp only [getA_insertRowAt_self, List.length_append, List.length_cons,
              List.length_nil] at h10
            rw [show acc.2.nextId + (k2 + 1) = acc.2.nextId + 1 + k2 by omega]
            rw [h10]
            rw [show (getA acc.2 d).ids.length + 1 + k2
              = (getA acc.2 d).ids.length + (k2 + 1) by omega]

/-- C8: extending any well-formed store with a batch of rows sharing one
layout returns the assigned ids ordered by issuance, matching the input order
one-to-one (consecutive fresh ids), and reading each inserted entity back
through its entry yields exactly the values that were inserted. -/
theorem claim8_roundtrip (w : World) (hwf : WF w) (lay : List Nat)
    (rows : List (List Nat)) :
    (World.extend w lay rows).1 = List.range' w.nextId rows.length ∧
    ∀ k, k < rows.length → ∀ t j, idxOfC t lay = some j →
      ∃ e : Entry,
        World.entry (World.extend w lay rows).2 (w.nextId + k) = some e ∧
        Entry.getComponent (World.extend w lay rows).2 e t
          = some ((rows.getD k []).getD j 0) := by
  obtain ⟨sp1, sp2, sp3, sp4, sp5, sp6, sp7, sp8, sp9, sp10⟩ :=
    extendFold_spec (ensureArch w lay).1 rows ([], (ensureArch w lay).2)
  dsimp only at sp1 sp2 sp3 sp4 sp5 sp6 sp7 sp8 sp9 sp10
  have hext : World.extend w lay rows
      = extendFold (ensureArch w lay).1 ([], (ensureArch w lay).2) rows := rfl
  have hn0 : (ensureArch w lay).2.nextId = w.nextId := ensureArch_nextId w lay
  constructor
  · rw [hext, sp1, hn0, List.nil_append]
  · intro k hk t j hj
    have hloc := sp10 k hk
    rw [hn0] at hloc
    refine ⟨⟨w.nextId + k, ⟨(ensureArch w lay).1,
      (getA (ensureArch w lay).2 (ensureArch w lay).1).ids.length + k⟩⟩, ?_, ?_⟩
    · unfold World.entry
      rw [hext, hloc]
      rfl
    · unfold Entry.getComponent
      dsimp only
      rw [hext]
      obtain ⟨hjl, hjt⟩ := idxOfC_some hj
      obtain ⟨hsh1, hsh2⟩ := @ensureArch_shape w lay hwf
      have hlay0 : (getA (ensureArch w lay).2 (ensureArch w lay).1).layout = lay :=
        ensureArch_layout w lay
      have hjc : j < (getA (ensureArch w lay).2 (ensureArch w lay).1).cols.length := by
        rw [hsh1, hlay0]
        exact hjl
      have hlaye : (getA (extendFold (ensureArch w lay).1 ([], (ensureArch w lay).2) rows).2
          (ensureArch w lay).1).layout = lay := by
        rw [sp5, hlay0]
      unfold compValueAt
      rw [hlaye, hj]
      dsimp only [Option.bind]
      rw [sp8 j hjc]
      have hcl : ((getA (ensureArch w lay).2 (ensureArch w lay).1).cols.getD j []).length
          = (getA (ensureArch w lay).2 (ensureArch w lay).1).ids.length := by
        rw [List.getD_eq_getElem _ _ hjc]
        exact hsh2 j hjc
      rw [List.getElem?_append_right (by omega)]
      rw [show (getA (ensureArch w lay).2 (ensureArch w lay).1).ids.length + k
          - ((getA (ensureArch w lay).2 (ensureArch w lay).1).cols.getD j []).length = k
        by omega]
      rw [List.getElem?_eq_getElem (by simpa using hk), List.getElem_map]
      rw [List.getD_eq_getElem _ _ hk]

theorem getComponent_at {w : World} {id s r : Nat}
    (h : w.locations id = some ⟨s, r⟩) (t : Nat) :
    getComponent w id t = compValueAt (getA w s) t r := by
  unfold getComponent
  rw [h]

theorem erase_append_singleton {c : Nat} {l : List Nat} (h : c ∉ l) :
    (l ++ [c]).erase c = l := by
  rw [List.erase_append_right _ h, List.erase_cons_head, List.append_nil]

theorem compValueAt_swapRemove_ne {w : World} (hwf : WF w) {s : Nat} (hs : s < w.archCount)
    {r q : Nat} (hrK : r < (getA w s).ids.length) (hq : q < (getA w s).ids.length)
    (hqr : q ≠ r) (hql : q ≠ (getA w s).ids.length - 1) (t : Nat) :
    compValueAt (getA (swapRemoveAt w s r) s) t q = compValueAt (getA w s) t q := by
  simp only [getA_swapRemoveAt_self]
  unfold compValueAt
  dsimp only
  cases hj : idxOfC t (getA w s).layout with
  | none => rfl
  | some j =>
      dsimp only [Option.bind]
      obtain ⟨hjl, hjt⟩ := idxOfC_some hj
      obtain ⟨hsh1, hsh2⟩ := hwf.shape s hs
      have hjc : j < (getA w s).cols.length := by rw [hsh1]; exact hjl
      rw [List.getD_eq_getElem _ _ (by simpa using hjc), List.getElem_map]
      rw [List.getD_eq_getElem _ _ hjc]
      have hcl : ((getA w s).cols[j]).length = (getA w s).ids.length := hsh2 j hjc
      have hql2 : q < (getA w s).ids.length - 1 := by omega
      rw [List.getElem?_eq_getElem
          (by rw [swapRemoveList_length _ _ (by omega)]; omega),
        List.getElem?_eq_getElem (by omega)]
      exact congrArg some
        (swapRemoveList_getElem_ne (by omega) hqr
          (by rw [swapRemoveList_length _ _ (by omega)]; omega) (by omega))

theorem compValueAt_swapRemove_last {w : World} (hwf : WF w) {s : Nat} (hs : s < w.archCount)
    {r : Nat} (hr1 : r + 1 < (getA w s).ids.length) (t : Nat) :
    compValueAt (getA (swapRemoveAt w s r) s) t r
      = compValueAt (getA w s) t ((getA w s).ids.length - 1) := by
  simp only [getA_swapRemoveAt_self]
  unfold compValueAt
  dsimp only
  cases hj : idxOfC t (getA w s).layout with
  | none => rfl
  | some j =>
      dsimp only [Option.bind]
      obtain ⟨hjl, hjt⟩ := idxOfC_some hj
      obtain ⟨hsh1, hsh2⟩ := hwf.shape s hs
      have hjc : j < (getA w s).cols.length := by rw [hsh1]; exact hjl
      rw [List.getD_eq_getElem _ _ (by simpa using hjc), List.getElem_map]
      rw [List.getD_eq_getElem _ _ hjc]
      have hcl : ((getA w s).cols[j]).length = (getA w s).ids.length := hsh2 j hjc
      rw [List.getElem?_eq_getElem
          (by rw [swapRemoveList_length _ _ (by omega)]; omega),
        List.getElem?_eq_getElem (by omega)]
      refine congrArg some ?_
      have h := swapRemoveList_getElem_last (l := (getA w s).cols[j]) (r := r)
        (by omega) (by rw [swapRemoveList_length _ _ (by omega)]; omega) (by omega)
      rw [h]
      congr 1
      omega

theorem removeCore_others {w : World} (hwf : WF w) {id s r : Nat}
    (hl : w.locations id = some ⟨s, r⟩) {id2 : Nat} (hne2 : id2 ≠ id)
    {loc2 : EntityLocation} (hl2 : w.locations id2 = some loc2) :
    ∃ loc2' : EntityLocation, (removeCore w id s r).locations id2 = some loc2' ∧
      ∀ t, compValueAt (getA (removeCore w id s r) loc2'.archetype) t loc2'.row
        = compValueAt (getA w loc2.archetype) t loc2.row := by
  obtain ⟨hs, hrK, hid⟩ := hwf.locValid id ⟨s, r⟩ hl
  dsimp only at hs hrK hid
  obtain ⟨ha2, hr2, he2⟩ := hwf.locValid id2 loc2 hl2
  have hner : ¬(loc2.archetype = s ∧ loc2.row = r) := by
    rintro ⟨ha, hq⟩
    apply hne2
    rw [← he2, ← hid]
    simp only [ha, hq]
  rw [removeCore_locations, updLoc_ne _ _ _ _ hne2]
  by_cases hcase : r = (getA w s).ids.length - 1
  · rw [swapRemoveAt_locations_last _ _ _ hcase, hl2]
    refine ⟨loc2, rfl, ?_⟩
    intro t
    by_cases hc2 : loc2.archetype = s
    · have hqr : loc2.row ≠ r := fun hq => hner ⟨hc2, hq⟩
      have hql : loc2.row ≠ (getA w s).ids.length - 1 := by rw [← hcase]; exact hqr
      simp only [hc2] at hr2 ⊢
      rw [getA_removeCore]
      exact compValueAt_swapRemove_ne hwf hs hrK hr2 hqr hql t
    · rw [getA_removeCore, getA_swapRemoveAt_ne _ _ _ _ hc2]
  · have hK1 : (getA w s).ids.length - 1 < (getA w s).ids.length := by omega
    have hgd : (getA w s).ids.getD ((getA w s).ids.length - 1) 0
        = (getA w s).ids[(getA w s).ids.length - 1] := List.getD_eq_getElem _ _ hK1
    rw [swapRemoveAt_locations_mid _ _ _ hcase, hgd]
    by_cases hc3 : id2 = (getA w s).ids[(getA w s).ids.length - 1]
    · refine ⟨⟨s, r⟩, ?_, ?_⟩
      · rw [hc3, updLoc_self]
      · intro t
        dsimp only
        have hloc2v : loc2 = ⟨s, (getA w s).ids.length - 1⟩ := by
          have hcc := hwf.locComplete s hs _ hK1
          rw [← hc3, hl2] at hcc
          exact Option.some.inj hcc
        simp only [hloc2v]
        rw [getA_removeCore]
        exact compValueAt_swapRemove_last hwf hs (by omega) t
    · rw [updLoc_ne _ _ _ _ hc3, hl2]
      refine ⟨loc2, rfl, ?_⟩
      intro t
      by_cases hc2 : loc2.archetype = s
      · have hqr : loc2.row ≠ r := fun hq => hner ⟨hc2, hq⟩
        have hql : loc2.row ≠ (getA w s).ids.length - 1 := by
          intro hq
          apply hc3
          rw [← he2]
          simp only [hc2, hq]
        simp only [hc2] at hr2 ⊢
        rw [getA_removeCore]
        exact compValueAt_swapRemove_ne hwf hs hrK hr2 hqr hql t
      · rw [getA_removeCore, getA_swapRemoveAt_ne _ _ _ _ hc2]

/-- C4: removing a live entity located at a non-last row of an archetype of
size K leaves that archetype with size K-1, preserves every other live entity
together with all its component values, relocates the entity previously at
the last row to the vacated row (its location index entry updated within the
same operation), and clears the removed id's location entry; removing an
unknown or already-removed id is a no-op returning false. -/
theorem claim4_swap_remove (w : World) (hwf : WF w) (id : Nat) :
    (w.locations id = none → World.remove w id = (false, w)) ∧
    (∀ s r, w.locations id = some ⟨s, r⟩ → r + 1 < (getA w s).ids.length →
      (World.remove w id).1 = true ∧
      (getA (World.remove w id).2 s).ids.length = (getA w s).ids.length - 1 ∧
      (World.remove w id).2.locations id = none ∧
      (World.remove w id).2.locations
          ((getA w s).ids.getD ((getA w s).ids.length - 1) 0) = some ⟨s, r⟩ ∧
      (∀ id2, id2 ≠ id → ∀ loc2, w.locations id2 = some loc2 →
        (∃ loc2', (World.remove w id).2.locations id2 = some loc2') ∧
        (∀ t, getComponent (World.remove w id).2 id2 t = getComponent w id2 t))) := by
  constructor
  · intro h
    unfold World.remove
    rw [h]
  · intro s r hl hr1
    have hrm : World.remove w id
        = (true, notify (removeCore w id s r) (getA w s).layout (.entityRemoved id s)) := by
      unfold World.remove
      rw [hl]
    rw [hrm]
    dsimp only
    obtain ⟨hs, hrK, hid⟩ := hwf.locValid id ⟨s, r⟩ hl
    dsimp only at hs hrK hid
    refine ⟨rfl, ?_, ?_, ?_, ?_⟩
    · show (getA (removeCore w id s r) s).ids.length = _
      rw [getA_removeCore]
      simp only [getA_swapRemoveAt_self]
      exact swapRemoveList_length _ _ hrK
    · show (removeCore w id s r).locations id = none
      rw [removeCore_locations, updLoc_self]
    · show (removeCore w id s r).locations _ = some ⟨s, r⟩
      have hK1 : (getA w s).ids.length - 1 < (getA w s).ids.length := by omega
      have hgd : (getA w s).ids.getD ((getA w s).ids.length - 1) 0
          = (getA w s).ids[(getA w s).ids.length - 1] := List.getD_eq_getElem _ _ hK1
      have hlne : (getA w s).ids[(getA w s).ids.length - 1] ≠ id :=
        row_id_ne_of_loc hwf hs hK1 hl (by intro e; cases e; omega)
      rw [removeCore_locations, hgd, updLoc_ne _ _ _ _ hlne]
      rw [swapRemoveAt_locations_mid _ _ _ (by omega), hgd, updLoc_self]
    · intro id2 hne2 loc2 hl2
      obtain ⟨loc2', hL, hV⟩ := removeCore_others hwf hl hne2 hl2
      constructor
      · exact ⟨loc2', hL⟩
      · intro t
        have hg1 : getComponent (notify (removeCore w id s r) (getA w s).layout
            (.entityRemoved id s)) id2 t = getComponent (removeCore w id s r) id2 t := rfl
        rw [hg1, getComponent_of_loc hL, getComponent_of_loc hl2]
        exact hV t

theorem claim4_witness :
    (World.remove (applyOps [.extend [0] [[5], [6], [7]]]) 9
        = (false, applyOps [.extend [0] [[5], [6], [7]]])) ∧
    ((World.remove (applyOps [.extend [0] [[5], [6], [7]]]) 0).1 = true ∧
      (getA (World.remove (applyOps [.extend [0] [[5], [6], [7]]]) 0).2 0).ids.length
        = (getA (applyOps [.extend [0] [[5], [6], [7]]]) 0).ids.length - 1 ∧
      (World.remove (applyOps [.extend [0] [[5], [6], [7]]]) 0).2.locations 0 = none ∧
      (World.remove (applyOps [.extend [0] [[5], [6], [7]]]) 0).2.locations
        ((getA (applyOps [.extend [0] [[5], [6], [7]]]) 0).ids.getD
          ((getA (applyOps [.extend [0] [[5], [6], [7]]]) 0).ids.length - 1) 0)
        = some ⟨0, 0⟩ ∧
      (∀ id2, id2 ≠ 0 → ∀ loc2,
        (applyOps [.extend [0] [[5], [6], [7]]]).locations id2 = some loc2 →
        (∃ loc2', (World.remove (applyOps [.extend [0] [[5], [6], [7]]]) 0).2.locations id2
            = some loc2') ∧
        (∀ t, getComponent (World.remove (applyOps [.extend [0] [[5], [6], [7]]]) 0).2 id2 t
            = getComponent (applyOps [.extend [0] [[5], [6], [7]]]) id2 t))) :=
  ⟨(claim4_swap_remove (applyOps [.extend [0] [[5], [6], [7]]])
      (applyOps_WF [.extend [0] [[5], [6], [7]]]) 9).1 (by decide),
   (claim4_swap_remove (applyOps [.extend [0] [[5], [6], [7]]])
      (applyOps_WF [.extend [0] [[5], [6], [7]]]) 0).2 0 0 (by decide) (by decide)⟩

theorem claim8_witness :
    (World.extend emptyWorld [0, 1] [[1, 2], [3, 4]]).1
      = List.range' emptyWorld.nextId ([[1, 2], [3, 4]] : List (List Nat)).length ∧
    ∀ k, k < ([[1, 2], [3, 4]] : List (List Nat)).length →
      ∀ t j, idxOfC t [0, 1] = some j →
      ∃ e : Entry,
        World.entry (World.extend emptyWorld [0, 1] [[1, 2], [3, 4]]).2
          (emptyWorld.nextId + k) = some e ∧
        Entry.getComponent (World.extend emptyWorld [0, 1] [[1, 2], [3, 4]]).2 e t
          = some ((([[1, 2], [3, 4]] : List (List Nat)).getD k []).getD j 0) :=
  claim8_roundtrip emptyWorld emptyWorld_WF [0, 1] [[1, 2], [3, 4]]

/-- C5: for an entity holding exactly components (A, B), adding a fresh
component C through its entry and then removing it leaves the entity in an
archetype whose layout is exactly (A, B), with its A and B values equal to
their values before the add; and at no point during either migration — in
particular in the intermediate state right after the append step of each —
is the entity absent from all archetypes. -/
theorem claim5_migration_preserves (w : World) (hwf : WF w) (id a b c va vb vc s r : Nat)
    (hloc : w.locations id = some ⟨s, r⟩)
    (hlay : (getA w s).layout = [a, b])
    (hab : a ≠ b) (hca : c ≠ a) (hcb : c ≠ b)
    (hva : getComponent w id a = some va) (hvb : getComponent w id b = some vb) :
    ∃ loc2 : EntityLocation,
      (removeComponent (addComponent w id c vc) id c).locations id = some loc2 ∧
      (getA (removeComponent (addComponent w id c vc) id c) loc2.archetype).layout = [a, b] ∧
      getComponent (removeComponent (addComponent w id c vc) id c) id a = some va ∧
      getComponent (removeComponent (addComponent w id c vc) id c) id b = some vb ∧
      present (addComponentSteps w id c vc).1 id ∧
      present (addComponent w id c vc) id ∧
      present (removeComponentSteps (addComponent w id c vc) id c).1 id ∧
      present (removeComponent (addComponent w id c vc) id c) id := by
  have hcm : c ∉ (getA w s).layout := by
    rw [hlay]
    simp [hca, hcb]
  have hins : insertComp c (getA w s).layout = (getA w s).layout ++ [c] := by
    unfold insertComp
    rw [if_neg hcm]
  have hdl1v : insertComp c (getA w s).layout = [a, b, c] := by
    rw [hins, hlay]
    rfl
  have hne1 : (getA w s).layout ≠ insertComp c (getA w s).layout := by
    rw [hins]
    intro e
    have := congrArg List.length e
    simp at this
  have haddS : addComponentSteps w id c vc
      = migrateSteps w id (insertComp c (getA w s).layout) (fun _ => vc) := by
    unfold addComponentSteps
    rw [hloc]
  have hadd : addComponent w id c vc
      = (migrateSteps w id (insertComp c (getA w s).layout) (fun _ => vc)).2 := by
    unfold addComponent
    rw [haddS]
  obtain ⟨S1wf, S1loc, S1lay, S1val, S1p1, S1p2, S1next, S1arch⟩ :=
    migrateSteps_spec hwf (fun _ => vc) hloc hne1
  rw [← hadd] at S1wf S1loc S1lay S1val S1p2
  rw [← haddS] at S1p1
  -- values after the first migration
  have hja : idxOfC a (insertComp c (getA w s).layout) = some 0 := by
    rw [hdl1v]
    simp [idxOfC]
  have hjb : idxOfC b (insertComp c (getA w s).layout) = some 1 := by
    rw [hdl1v]
    simp [idxOfC, hab]
  have hcva : compValueAt (getA w s) a r = some va := by
    rw [← getComponent_at hloc a]
    exact hva
  have hcvb : compValueAt (getA w s) b r = some vb := by
    rw [← getComponent_at hloc b]
    exact hvb
  have hva1 : getComponent (addComponent w id c vc) id a = some va := by
    have h1 := S1val a 0 hja
    rw [hcva] at h1
    simpa using h1
  have hvb1 : getComponent (addComponent w id c vc) id b = some vb := by
    have h1 := S1val b 1 hjb
    rw [hcvb] at h1
    simpa using h1
  -- the second migration
  have herase2 : (getA (addComponent w id c vc)
        (ensureArch w (insertComp c (getA w s).layout)).1).layout.erase c = [a, b] := by
    rw [S1lay, hins, erase_append_singleton hcm, hlay]
  have hremS : removeComponentSteps (addComponent w id c vc) id c
      = migrateSteps (addComponent w id c vc) id
          ((getA (addComponent w id c vc)
            (ensureArch w (insertComp c (getA w s).layout)).1).layout.erase c)
          (fun _ => 0) := by
    unfold removeComponentSteps
    rw [S1loc]
  have hrem : removeComponent (addComponent w id c vc) id c
      = (migrateSteps (addComponent w id c vc) id
          ((getA (addComponent w id c vc)
            (ensureArch w (insertComp c (getA w s).layout)).1).layout.erase c)
          (fun _ => 0)).2 := by
    unfold removeComponent
    rw [hremS]
  have hne2 : (getA (addComponent w id c vc)
        (ensureArch w (insertComp c (getA w s).layout)).1).layout
      ≠ (getA (addComponent w id c vc)
          (ensureArch w (insertComp c (getA w s).layout)).1).layout.erase c := by
    have h3 : ([a, b, c] : List Nat).erase c = [a, b] := by
      have h4 := erase_append_singleton (l := [a, b]) (c := c) (by simp [hca, hcb])
      simpa using h4
    rw [S1lay, hdl1v, h3]
    simp
  obtain ⟨S2wf, S2loc, S2lay, S2val, S2p1, S2p2, S2next, S2arch⟩ :=
    migrateSteps_spec S1wf (fun _ => 0) S1loc hne2
  rw [← hrem] at S2loc S2lay S2val S2p2
  rw [← hremS] at S2p1
  have hja2 : idxOfC a ((getA (addComponent w id c vc)
      (ensureArch w (insertComp c (getA w s).layout)).1).layout.erase c) = some 0 := by
    rw [herase2]
    simp [idxOfC]
  have hjb2 : idxOfC b ((getA (addComponent w id c vc)
      (ensureArch w (insertComp c (getA w s).layout)).1).layout.erase c) = some 1 := by
    rw [herase2]
    simp [idxOfC, hab]
  have hcva1 : compValueAt (getA (addComponent w id c vc)
        (ensureArch w (insertComp c (getA w s).layout)).1) a
        (getA (ensureArch w (insertComp c (getA w s).layout)).2
          (ensureArch w (insertComp c (getA w s).layout)).1).ids.length = some va := by
    rw [← getComponent_at S1loc a]
    exact hva1
  have hcvb1 : compValueAt (getA (addComponent w id c vc)
        (ensureArch w (insertComp c (getA w s).layout)).1) b
        (getA (ensureArch w (insertComp c (getA w s).layout)).2
          (ensureArch w (insertComp c (getA w s).layout)).1).ids.length = some vb := by
    rw [← getComponent_at S1loc b]
    exact hvb1
  refine ⟨_, S2loc, ?_, ?_, ?_, S1p1, S1p2, S2p1, S2p2⟩
  · rw [S2lay, herase2]
  · have h2 := S2val a 0 hja2
    rw [hcva1] at h2
    simpa using h2
  · have h2 := S2val b 1 hjb2
    rw [hcvb1] at h2
    simpa using h2

@[simp] theorem notify_subscribers_length (w : World) (lay : List Nat) (e : Event) :
    (notify w lay e).subscribers.length = w.subscribers.length := by
  simp [notify]

theorem deliverOne_fst (e : Event) (lay : List Nat) (s : Subscriber) :
    (deliverOne e lay s).1 = { s with sink := deliverSink lay [e] s } := by
  unfold deliverOne deliverSink
  by_cases hf : s.filter lay
  · rw [if_pos hf, if_pos hf]
    by_cases hr : s.sink.length < s.capacity
    · rw [if_pos hr]
      dsimp only
      rw [max_eq_right (le_of_lt hr), List.take_all_of_le (by simp; omega)]
    · rw [if_neg hr]
      dsimp only
      rw [max_eq_left (by omega), List.take_left]
  · rw [if_neg hf, if_neg hf]

theorem deliverSink_full (lay : List Nat) (evs : List Event) (s : Subscriber)
    (hc : s.capacity ≤ s.sink.length) : deliverSink lay evs s = s.sink := by
  unfold deliverSink
  split
  · rw [max_eq_left hc, List.take_left]
  · rfl

theorem deliverSink_two (lay : List Nat) (e1 e2 : Event) (s : Subscriber) :
    deliverSink lay [e2] { s with sink := deliverSink lay [e1] s }
      = deliverSink lay [e1, e2] s := by
  unfold deliverSink
  dsimp only
  by_cases hf : s.filter lay
  · rw [if_pos hf, if_pos hf, if_pos hf]
    by_cases hr : s.sink.length < s.capacity
    · have hinner : (s.sink ++ [e1]).take (s.sink.length ⊔ s.capacity) = s.sink ++ [e1] := by
        rw [max_eq_right (le_of_lt hr)]
        exact List.take_all_of_le (by simp; omega)
      rw [hinner, List.length_append, List.length_cons, List.length_nil,
        max_eq_right (by omega), max_eq_right (le_of_lt hr)]
      simp [List.append_assoc]
    · have hinner : (s.sink ++ [e1]).take (s.sink.length ⊔ s.capacity) = s.sink := by
        rw [max_eq_left (by omega)]
        exact List.take_left _ _
      rw [hinner, max_eq_left (by omega), List.take_left]
      exact (List.take_left _ _).symm
  · rw [if_neg hf, if_neg hf, if_neg hf]

theorem notify_subscriber (w : World) (lay : List Nat) (e : Event) (k : Nat)
    (hk : k < w.subscribers.length)
    (hk2 : k < (notify w lay e).subscribers.length) :
    (notify w lay e).subscribers[k]
      = { w.subscribers[k] with sink := deliverSink lay [e] (w.subscribers[k]) } := by
  have h1 : (notify w lay e).subscribers
      = (w.subscribers.map (deliverOne e lay)).map Prod.fst := rfl
  simp only [h1, List.getElem_map]
  rw [deliverOne_fst]

theorem notify_failed_full (w : World) (lay : List Nat) (e : Event)
    (h : ∃ k, ∃ hk : k < w.subscribers.length, ((w.subscribers[k]).filter lay = true ∧
      (w.subscribers[k]).capacity ≤ (w.subscribers[k]).sink.length)) :
    (notify w lay e).failed = w.failed ++ [e] := by
  obtain ⟨k, hk, hf, hc⟩ := h
  show (if (w.subscribers.map (deliverOne e lay)).all Prod.snd then w.failed
    else w.failed ++ [e]) = w.failed ++ [e]
  have hcond : ¬((w.subscribers.map (deliverOne e lay)).all Prod.snd = true) := by
    intro hall
    rw [List.all_eq_true] at hall
    have hmem : deliverOne e lay (w.subscribers[k])
        ∈ w.subscribers.map (deliverOne e lay) :=
      List.mem_map_of_mem _ (List.getElem_mem hk)
    have hsnd := hall _ hmem
    unfold deliverOne at hsnd
    rw [if_pos hf, if_neg (by omega)] at hsnd
    simp at hsnd
  rw [if_neg hcond]

theorem insertRowAt_events (w : World) (d : Nat) (row : List Nat) :
    (insertRowAt w d row).2.events = w.events ++ [.entityInserted w.nextId d] := rfl

theorem insertRowAt_subscribers (w : World) (d : Nat) (row : List Nat) :
    (insertRowAt w d row).2.subscribers
      = (w.subscribers.map
          (deliverOne (.entityInserted w.nextId d) (getA w d).layout)).map Prod.fst := rfl

@[simp] theorem insertRowAt_subscribers_length (w : World) (d : Nat) (row : List Nat) :
    (insertRowAt w d row).2.subscribers.length = w.subscribers.length := by
  rw [insertRowAt_subscribers]
  simp

theorem insertRowAt_subscriber (w : World) (d : Nat) (row : List Nat) (k : Nat)
    (hk : k < w.subscribers.length)
    (hk2 : k < (insertRowAt w d row).2.subscribers.length) :
    (insertRowAt w d row).2.subscribers[k]
      = { w.subscribers[k] with
          sink := deliverSink (getA w d).layout [.entityInserted w.nextId d]
            (w.subscribers[k]) } := by
  simp only [insertRowAt_subscribers, List.getElem_map]
  rw [deliverOne_fst]

theorem insertRowAt_failed_full (w : World) (d : Nat) (row : List Nat)
    (h : ∃ k, ∃ hk : k < w.subscribers.length,
      ((w.subscribers[k]).filter (getA w d).layout = true ∧
      (w.subscribers[k]).capacity ≤ (w.subscribers[k]).sink.length)) :
    (insertRowAt w d row).2.failed = w.failed ++ [.entityInserted w.nextId d] :=
  notify_failed_full _ _ _ h

theorem ensureArch_none_fst {w : World} {lay : List Nat} (h : findArch w lay = none) :
    (ensureArch w lay).1 = w.archCount := by
  unfold ensureArch
  rw [h]

theorem ensureArch_none_events {w : World} {lay : List Nat} (h : findArch w lay = none) :
    (ensureArch w lay).2.events = w.events ++ [.archetypeCreated lay] := by
  unfold ensureArch
  rw [h]
  rfl

theorem ensureArch_none_subscribers {w : World} {lay : List Nat} (h : findArch w lay = none) :
    (ensureArch w lay).2.subscribers
      = (w.subscribers.map (deliverOne (.archetypeCreated lay) lay)).map Prod.fst := by
  unfold ensureArch
  rw [h]
  rfl

theorem ensureArch_none_failed_full {w : World} {lay : List Nat} (h : findArch w lay = none)
    (hfull : ∃ k, ∃ hk : k < w.subscribers.length, ((w.subscribers[k]).filter lay = true ∧
      (w.subscribers[k]).capacity ≤ (w.subscribers[k]).sink.length)) :
    (ensureArch w lay).2.failed = w.failed ++ [.archetypeCreated lay] := by
  unfold ensureArch
  rw [h]
  exact notify_failed_full _ _ _ hfull

theorem ensureArch_some_eq {w : World} {lay : List Nat} {i : Nat}
    (h : findArch w lay = some i) : ensureArch w lay = (i, w) := by
  unfold ensureArch
  rw [h]

theorem ensureArch_subscribers_length (w : World) (lay : List Nat) :
    (ensureArch w lay).2.subscribers.length = w.subscribers.length := by
  unfold ensureArch
  cases h : findArch w lay with
  | some i => rfl
  | none =>
      show (notify _ _ _).subscribers.length = _
      rw [notify_subscribers_length]

theorem ensureArch_none_subscriber {w : World} {lay : List Nat}
    (h : findArch w lay = none) (k : Nat) (hk : k < w.subscribers.length)
    (hk2 : k < (ensureArch w lay).2.subscribers.length) :
    (ensureArch w lay).2.subscribers[k]
      = { w.subscribers[k] with
          sink := deliverSink lay [.archetypeCreated lay] (w.subscribers[k]) } := by
  simp only [ensureArch_none_subscribers h, List.getElem_map]
  rw [deliverOne_fst]

/-- C9: events fire synchronously, in the order the corresponding storage
operations occur, within the triggering call: a push appends the
archetype-created (when a new archetype is made) and entity-inserted events to
the event log in storage order; each subscriber whose layout filter matches
receives exactly those events, in order, up to its capacity, and a
non-matching subscriber is untouched; when a matching sink is already full
(backpressure), the delivery failure is surfaced to the caller on the failed
log while the insertion that produced the event remains committed: the new
entity stays located and the id allocator has advanced. -/
theorem claim9_event_delivery (w : World) (lay : List Nat) (row : List Nat) :
    (∃ evs : List Event,
      ((findArch w lay).isSome →
        evs = [.entityInserted w.nextId (ensureArch w lay).1]) ∧
      (findArch w lay = none →
        evs = [.archetypeCreated lay, .entityInserted w.nextId w.archCount]) ∧
      (World.push w lay row).2.events = w.events ++ evs ∧
      (World.push w lay row).2.subscribers.length = w.subscribers.length ∧
      (∀ k, (hk : k < w.subscribers.length) →
        ∀ hk2 : k < (World.push w lay row).2.subscribers.length,
        (World.push w lay row).2.subscribers[k]
          = { w.subscribers[k] with sink := deliverSink lay evs (w.subscribers[k]) }) ∧
      ((∃ k, ∃ hk : k < w.subscribers.length, ((w.subscribers[k]).filter lay = true ∧
          (w.subscribers[k]).capacity ≤ (w.subscribers[k]).sink.length)) →
        (World.push w lay row).2.failed = w.failed ++ evs) ∧
      ((World.push w lay row).2.locations w.nextId).isSome ∧
      (World.push w lay row).2.nextId = w.nextId + 1) ∧
    (∀ id s r, w.locations id = some ⟨s, r⟩ →
      (World.remove w id).2.events = w.events ++ [.entityRemoved id s] ∧
      (World.remove w id).2.subscribers.length = w.subscribers.length ∧
      (∀ k, (hk : k < w.subscribers.length) →
        ∀ hk2 : k < (World.remove w id).2.subscribers.length,
        (World.remove w id).2.subscribers[k]
          = { w.subscribers[k] with
              sink := deliverSink (getA w s).layout [.entityRemoved id s]
                (w.subscribers[k]) }) ∧
      ((∃ k, ∃ hk : k < w.subscribers.length,
          ((w.subscribers[k]).filter (getA w s).layout = true ∧
          (w.subscribers[k]).capacity ≤ (w.subscribers[k]).sink.length)) →
        (World.remove w id).2.failed = w.failed ++ [.entityRemoved id s]) ∧
      (World.remove w id).1 = true ∧
      (World.remove w id).2.locations id = none) := by
  constructor
  case right =>
    intro id s r hl
    have hrm : World.remove w id
        = (true, notify (removeCore w id s r) (getA w s).layout (.entityRemoved id s)) := by
      unfold World.remove
      rw [hl]
    have hsubsR : (removeCore w id s r).subscribers = w.subscribers := by
      show (swapRemoveAt w s r).subscribers = w.subscribers
      unfold swapRemoveAt
      dsimp only
      split <;> rfl
    have hevR : (removeCore w id s r).events = w.events := by
      show (swapRemoveAt w s r).events = w.events
      unfold swapRemoveAt
      dsimp only
      split <;> rfl
    have hfailR : (removeCore w id s r).failed = w.failed := by
      show (swapRemoveAt w s r).failed = w.failed
      unfold swapRemoveAt
      dsimp only
      split <;> rfl
    refine ⟨?_, ?_, ?_, ?_, ?_, ?_⟩
    · rw [hrm]
      show (removeCore w id s r).events ++ [.entityRemoved id s] = _
      rw [hevR]
    · rw [hrm]
      show (notify (removeCore w id s r) _ _).subscribers.length = _
      rw [notify_subscribers_length, hsubsR]
    · intro k hk hk2
      simp only [hrm] at hk2 ⊢
      have hkR : k < (removeCore w id s r).subscribers.length := by
        rw [hsubsR]
        exact hk
      rw [notify_subscriber _ _ _ k hkR hk2]
      simp only [hsubsR]
    · intro hfull
      obtain ⟨k, hk, hf, hc⟩ := hfull
      have hkR : k < (removeCore w id s r).subscribers.length := by
        rw [hsubsR]
        exact hk
      have hfull2 : ∃ k2, ∃ hk2 : k2 < (removeCore w id s r).subscribers.length,
          (((removeCore w id s r).subscribers[k2]).filter (getA w s).layout = true ∧
          ((removeCore w id s r).subscribers[k2]).capacity
            ≤ ((removeCore w id s r).subscribers[k2]).sink.length) := by
        refine ⟨k, hkR, ?_, ?_⟩
        · simp only [hsubsR]
          exact hf
        · simp only [hsubsR]
          exact hc
      rw [hrm]
      show (notify (removeCore w id s r) _ _).failed = _
      rw [notify_failed_full _ _ _ hfull2, hfailR]
    · rw [hrm]
    · rw [hrm]
      show (removeCore w id s r).locations id = none
      rw [removeCore_locations, updLoc_self]
  case left =>
    cases hfa : findArch w lay with
  | some i =>
      have hEns := ensureArch_some_eq hfa
      have hpush : World.push w lay row = insertRowAt w i row := by
        unfold World.push
        rw [hEns]
      have hlayi : (getA w i).layout = lay := (findArch_some hfa).2
      refine ⟨[.entityInserted w.nextId i], fun _ => by rw [hEns],
        fun h => Option.noConfusion h, ?_, ?_, ?_, ?_, ?_, ?_⟩
      · rw [hpush, insertRowAt_events]
      · rw [hpush, insertRowAt_subscribers_length]
      · intro k hk hk2
        simp only [hpush] at hk2 ⊢
        rw [insertRowAt_subscriber w i row k hk hk2, hlayi]
      · intro hfull
        obtain ⟨k, hk, hf, hc⟩ := hfull
        rw [hpush]
        exact insertRowAt_failed_full w i row ⟨k, hk, by rw [hlayi]; exact hf, hc⟩
      · rw [hpush, insertRowAt_locations, updLoc_self]
        rfl
      · rw [hpush, insertRowAt_nextId]
  | none =>
      have hd : (ensureArch w lay).1 = w.archCount := ensureArch_none_fst hfa
      have hpush : World.push w lay row
          = insertRowAt (ensureArch w lay).2 (ensureArch w lay).1 row := rfl
      have hlay1 : (getA (ensureArch w lay).2 (ensureArch w lay).1).layout = lay :=
        ensureArch_layout w lay
      have hn1 : (ensureArch w lay).2.nextId = w.nextId := ensureArch_nextId w lay
      refine ⟨[.archetypeCreated lay, .entityInserted w.nextId w.archCount],
        fun h => by simp at h, fun _ => rfl, ?_, ?_, ?_, ?_, ?_, ?_⟩
      · rw [hpush, insertRowAt_events, ensureArch_none_events hfa, hn1, hd]
        simp
      · rw [hpush, insertRowAt_subscribers_length, ensureArch_subscribers_length]
      · intro k hk hk2
        simp only [hpush] at hk2 ⊢
        have hk1 : k < (ensureArch w lay).2.subscribers.length := by
          rw [ensureArch_subscribers_length]
          exact hk
        rw [insertRowAt_subscriber _ _ row k hk1 hk2]
        rw [ensureArch_none_subscriber hfa k hk hk1]
        rw [hlay1, hn1, hd]
        dsimp only
        rw [deliverSink_two]
      · intro hfull
        obtain ⟨k, hk, hf, hc⟩ := hfull
        have hk1 : k < (ensureArch w lay).2.subscribers.length := by
          rw [ensureArch_subscribers_length]
          exact hk
        have hsub1 := ensureArch_none_subscriber hfa k hk hk1
        have hfull2 : ∃ k2, ∃ hk2 : k2 < (ensureArch w lay).2.subscribers.length,
            (((ensureArch w lay).2.subscribers[k2]).filter
              (getA (ensureArch w lay).2 (ensureArch w lay).1).layout = true ∧
            ((ensureArch w lay).2.subscribers[k2]).capacity
              ≤ ((ensureArch w lay).2.subscribers[k2]).sink.length) := by
          refine ⟨k, hk1, ?_, ?_⟩
          · rw [hsub1, hlay1]
            exact hf
          · rw [hsub1]
            dsimp only
            rw [deliverSink_full _ _ _ hc]
            exact hc
        rw [hpush, insertRowAt_failed_full _ _ row hfull2, hn1, hd,
          ensureArch_none_failed_full hfa ⟨k, hk, hf, hc⟩]
        simp
      · rw [hpush, insertRowAt_locations, hn1, updLoc_self]
        rfl
      · rw [hpush, insertRowAt_nextId, hn1]

theorem claim9_witness :
    ∃ evs : List Event,
      ((findArch { emptyWorld with
          subscribers := [⟨fun _ => true, 0, []⟩] } [0]).isSome →
        evs = [.entityInserted ({ emptyWorld with
          subscribers := [⟨fun _ => true, 0, []⟩] } : World).nextId
          (ensureArch { emptyWorld with
            subscribers := [⟨fun _ => true, 0, []⟩] } [0]).1]) ∧
      (findArch { emptyWorld with subscribers := [⟨fun _ => true, 0, []⟩] } [0] = none →
        evs = [.archetypeCreated [0], .entityInserted ({ emptyWorld with
          subscribers := [⟨fun _ => true, 0, []⟩] } : World).nextId
          ({ emptyWorld with subscribers := [⟨fun _ => true, 0, []⟩] } : World).archCount]) ∧
      (World.push { emptyWorld with subscribers := [⟨fun _ => true, 0, []⟩] } [0]
          [7]).2.events
        = ({ emptyWorld with subscribers := [⟨fun _ => true, 0, []⟩] } : World).events
          ++ evs ∧
      (World.push { emptyWorld with subscribers := [⟨fun _ => true, 0, []⟩] } [0]
          [7]).2.subscribers.length
        = ({ emptyWorld with
            subscribers := [⟨fun _ => true, 0, []⟩] } : World).subscribers.length ∧
      (∀ k, (hk : k < ({ emptyWorld with
          subscribers := [⟨fun _ => true, 0, []⟩] } : World).subscribers.length) →
        ∀ hk2 : k < (World.push { emptyWorld with
          subscribers := [⟨fun _ => true, 0, []⟩] } [0] [7]).2.subscribers.length,
        (World.push { emptyWorld with
          subscribers := [⟨fun _ => true, 0, []⟩] } [0] [7]).2.subscribers[k]
          = { ({ emptyWorld with
              subscribers := [⟨fun _ => true, 0, []⟩] } : World).subscribers[k] with
              sink := deliverSink [0] evs (({ emptyWorld with
                subscribers := [⟨fun _ => true, 0, []⟩] } : World).subscribers[k]) }) ∧
      ((∃ k, ∃ hk : k < ({ emptyWorld with
          subscribers := [⟨fun _ => true, 0, []⟩] } : World).subscribers.length,
          ((({ emptyWorld with
              subscribers := [⟨fun _ => true, 0, []⟩] } : World).subscribers[k]).filter [0]
            = true ∧
          (({ emptyWorld with
              subscribers := [⟨fun _ => true, 0, []⟩] } : World).subscribers[k]).capacity
            ≤ (({ emptyWorld with
              subscribers := [⟨fun _ => true, 0, []⟩] } : World).subscribers[k]).sink.length)) →
        (World.push { emptyWorld with
            subscribers := [⟨fun _ => true, 0, []⟩] } [0] [7]).2.failed
          = ({ emptyWorld with
              subscribers := [⟨fun _ => true, 0, []⟩] } : World).failed ++ evs) ∧
      ((World.push { emptyWorld with
          subscribers := [⟨fun _ => true, 0, []⟩] } [0] [7]).2.locations
        ({ emptyWorld with
          subscribers := [⟨fun _ => true, 0, []⟩] } : World).nextId).isSome ∧
      (World.push { emptyWorld with
          subscribers := [⟨fun _ => true, 0, []⟩] } [0] [7]).2.nextId
        = ({ emptyWorld with
            subscribers := [⟨fun _ => true, 0, []⟩] } : World).nextId + 1 :=
  (claim9_event_delivery { emptyWorld with subscribers := [⟨fun _ => true, 0, []⟩] }
    [0] [7]).1

theorem claim5_witness :
    ∃ loc2 : EntityLocation,
      (removeComponent (addComponent (World.push emptyWorld [1, 2] [10, 20]).2 0 3 30)
          0 3).locations 0 = some loc2 ∧
      (getA (removeComponent (addComponent (World.push emptyWorld [1, 2] [10, 20]).2 0 3 30)
          0 3) loc2.archetype).layout = [1, 2] ∧
      getComponent (removeComponent (addComponent (World.push emptyWorld [1, 2] [10, 20]).2
          0 3 30) 0 3) 0 1 = some 10 ∧
      getComponent (removeComponent (addComponent (World.push emptyWorld [1, 2] [10, 20]).2
          0 3 30) 0 3) 0 2 = some 20 ∧
      present (addComponentSteps (World.push emptyWorld [1, 2] [10, 20]).2 0 3 30).1 0 ∧
      present (addComponent (World.push emptyWorld [1, 2] [10, 20]).2 0 3 30) 0 ∧
      present (removeComponentSteps (addComponent (World.push emptyWorld [1, 2] [10, 20]).2
          0 3 30) 0 3).1 0 ∧
      present (removeComponent (addComponent (World.push emptyWorld [1, 2] [10, 20]).2
          0 3 30) 0 3) 0 :=
  claim5_migration_preserves (World.push emptyWorld [1, 2] [10, 20]).2
    (push_WF emptyWorld_WF [1, 2] [10, 20]) 0 1 2 3 10 20 30 0 0
    (by decide) (by decide) (by decide) (by decide) (by decide) (by decide) (by decide)

end Legion
